import Mathlib

/-!
# Verification of the prose ingestion → evolution → retrieval pipeline

A shallow embedding, in Lean 4, of the core of the `prose` semantic-memory
tool: the incremental JSONL session parser (`session-parser.ts`), the
vertical and horizontal evolution engines (`evolve.ts`, `horizontal.ts`),
and the hybrid retrieval scorer (`memory.ts`), together with theorems
settling the specified behaviour of each component.

Modelling conventions:
* File contents are lists of bytes (`List Nat`); byte 10 is `'\n'`.
* `JSON.parse` plus record-shape validation is treated as an abstract
  record parser `List Nat → Option RawLine`; theorems quantify over it.
* JavaScript numbers are modelled as `Int`/`Nat`/`ℚ` (exact arithmetic);
  timestamps (`Date`) are epoch milliseconds (`Int`).
* External collaborators (the LLM reasoning service and the Jina
  embedding service, `jina.ts`, which is not part of the core sources)
  are oracles passed as parameters.
* String operations (`trim`, `split(/\s+/)`, `toLowerCase`) are modelled
  on the ASCII range, where they agree with the Unicode-aware JS
  originals; all inputs exercised by concrete theorems are ASCII.
-/

namespace Prose

/-- JS whitespace test (`\s`), restricted to the ASCII range plus NBSP. -/
def isWsChar (c : Char) : Bool :=
  c = ' ' ∨ c = '\t' ∨ c = '\n' ∨ c = '\r' ∨ c = '\x0b' ∨ c = '\x0c' ∨ c = '\xa0'

/-- JS whitespace test on bytes, for `Buffer`-level trimming. -/
def isWsByte (b : Nat) : Bool :=
  b = 32 ∨ b = 9 ∨ b = 10 ∨ b = 13 ∨ b = 11 ∨ b = 12

/-- Model of `String.prototype.trim` on a byte list (ASCII whitespace). -/
def trimBytes (l : List Nat) : List Nat :=
  ((l.dropWhile isWsByte).reverse.dropWhile isWsByte).reverse

/-- Model of `String.prototype.trim` on a string (ASCII whitespace). -/
def jsTrim (s : String) : String :=
  String.mk (((s.toList.dropWhile isWsChar).reverse.dropWhile isWsChar).reverse)

/-- Model of `String.prototype.toLowerCase`, ASCII range. -/
def jsToLower (s : String) : String :=
  String.mk (s.toList.map Char.toLower)

/-- Helper for `jsSplitWs`: `tok` mode is inside a token (`cur` holds its
reversed characters); `ws` mode is just after a whitespace run. -/
def jsSplitWsAux : List Char → List Char → Bool → List String
  | [], cur, inWs => if inWs then [""] else [String.mk cur.reverse]
  | c :: rest, cur, inWs =>
    if inWs then
      if isWsChar c then jsSplitWsAux rest [] true
      else jsSplitWsAux rest [c] false
    else
      if isWsChar c then String.mk cur.reverse :: jsSplitWsAux rest [] true
      else jsSplitWsAux rest (c :: cur) false

/-- Model of `s.split(/\s+/)` with JS semantics: `""` yields `[""]`; a leading or
trailing whitespace run contributes an empty element. -/
def jsSplitWs (s : String) : List String :=
  jsSplitWsAux s.toList [] false

/-- Substring test, `String.prototype.includes`. -/
def listIncludes : List Char → List Char → Bool
  | [], needle => needle.isEmpty
  | c :: rest, needle => needle.isPrefixOf (c :: rest) || listIncludes rest needle

/-- Model of `hay.includes(needle)` for strings. -/
def jsIncludes (hay needle : String) : Bool :=
  listIncludes hay.toList needle.toList

/-- JS `x || y` on strings (empty string is falsy). -/
def jsOrStr (x y : String) : String := if x = "" then y else x

/-- JS `x || y` on integers (0 is falsy). -/
def jsOrInt (x y : Int) : Int := if x = 0 then y else x

-- ===========================================================================
-- Session parser (`session-parser.ts`)
-- ===========================================================================

/-- The structured text content of a log record's `message.content` field:
either a plain string or an array of typed blocks. -/
inductive JsContent where
  | str (s : String)
  | blocks (bs : List (String × Option String))
  deriving DecidableEq

/-- One successfully `JSON.parse`d log line, restricted to the fields the
parser reads: `type`, `sessionId` (optional key), `cwd` (optional key),
`message.content`, `timestamp`, `uuid`. -/
structure RawLine where
  rtype : String
  sessionId : Option String
  cwd : Option String
  content : JsContent
  timestamp : Int
  uuid : String
  deriving DecidableEq

/-- Model of `extractTextContent`: a plain string passes through; an array keeps the
`text` of blocks whose `type` is `"text"` and whose `text` is a string,
joined by a blank line. -/
def extractTextContent : JsContent → String
  | .str s => s
  | .blocks bs =>
    String.intercalate "\n\n"
      ((bs.filter (fun b => b.1 = "text" ∧ b.2.isSome)).map (fun b => b.2.getD ""))

/-- The role of a parsed message. -/
inductive Role where
  | user
  | assistant
  deriving DecidableEq

/-- Provenance link attached to each message (`filePath`, a constant
parameter of the parse, is omitted). -/
structure SourceLink where
  sessionId : Option String
  messageUuid : String
  timestamp : Int
  deriving DecidableEq

/-- One parsed conversation turn. -/
structure Message where
  role : Role
  content : String
  timestamp : Int
  source : SourceLink
  deriving DecidableEq

/-- Mutable state of the parse loop in `parseSessionFile` /
`parseSessionFileFromOffset`: collected messages (in push order), the
captured session id and project, and `lastSuccessfulOffset`. -/
structure PState where
  msgs : List Message
  sessionId : String
  project : String
  lastOk : Nat
  deriving DecidableEq

/-- Stable ascending insertion by timestamp (`messages.sort((a, b) =>
a.timestamp.getTime() - b.timestamp.getTime())`; JS sort is stable). -/
def insertAscTs (m : Message) : List Message → List Message
  | [] => [m]
  | x :: xs => if x.timestamp < m.timestamp then x :: insertAscTs m xs else m :: x :: xs

/-- Stable ascending sort of messages by timestamp. -/
def sortByTs (l : List Message) : List Message :=
  l.foldr insertAscTs []

/-- Split a byte buffer at every newline byte; always returns at least one
(possibly empty) segment, one more segment than there are newlines. -/
def splitB : List Nat → List (List Nat)
  | [] => [[]]
  | b :: rest =>
    if b = 10 then [] :: splitB rest
    else
      match splitB rest with
      | h :: t => (b :: h) :: t
      | [] => [[b]]

/-- Pair each line segment with a flag telling whether it is terminated by a
newline. When the buffer ends in a newline the final empty segment is
dropped: the `while (currentOffset < buffer.length)` loop never visits it. -/
def flagSegs : List (List Nat) → List (List Nat × Bool)
  | [] => []
  | [s] => if s = [] then [] else [(s, false)]
  | s :: s' :: rest => (s, true) :: flagSegs (s' :: rest)

/-- The line segments of a buffer, flagged with newline-termination. -/
def segsWithFlags (buf : List Nat) : List (List Nat × Bool) :=
  flagSegs (splitB buf)

/-- The per-record body of the parse loop (the code inside `try` after a
successful `JSON.parse`, apart from the `lastSuccessfulOffset` update):
skip `file-history-snapshot` records; capture `sessionId` and `cwd` on
first (truthy) sight; push a message for `user`/`assistant` records whose
extracted text is nonempty after trimming. -/
def processRecord (st : PState) (r : RawLine) : PState :=
  if r.rtype = "file-history-snapshot" then st
  else
    let sid := if st.sessionId = "" then
        (match r.sessionId with
          | some v => v
          | none => st.sessionId)
      else st.sessionId
    let proj := if st.project = "" then
        (match r.cwd with
          | some v => if v = "" then st.project else v
          | none => st.project)
      else st.project
    let st1 : PState := { st with sessionId := sid, project := proj }
    if r.rtype = "user" ∨ r.rtype = "assistant" then
      let text := extractTextContent r.content
      if jsTrim text = "" then st1
      else
        { st1 with msgs := st1.msgs ++
            [{ role := if r.rtype = "user" then .user else .assistant,
               content := text,
               timestamp := r.timestamp,
               source := { sessionId := r.sessionId, messageUuid := r.uuid,
                           timestamp := r.timestamp } }] }
    else st1

/-- The parse loop of `parseSessionFile`, one step per line segment.
`base` is the byte offset of the segment's first byte. A nonempty line that
fails to parse breaks out of the loop, returning the state as it stands
(in particular `lastOk` still points at the start of that line); empty
lines and parsed lines advance `lastSuccessfulOffset` past the line (and
its newline when one is present). -/
def runSegs (parse : List Nat → Option RawLine) :
    List (List Nat × Bool) → Nat → PState → PState
  | [], _, st => st
  | (s, term) :: rest, base, st =>
    let newLastOk := base + s.length + (if term then 1 else 0)
    let lineT := trimBytes s
    if lineT = [] then
      runSegs parse rest (base + s.length + 1) { st with lastOk := newLastOk }
    else
      match parse lineT with
      | some r => runSegs parse rest (base + s.length + 1)
          { processRecord st r with lastOk := newLastOk }
      | none => st

/-- The result of `parseSessionFile`. `startTime`/`endTime` fall back to
`new Date()` (the `now` parameter) when no messages were parsed. -/
structure Conversation where
  sessionId : String
  project : String
  messages : List Message
  startTime : Int
  endTime : Int
  processedBytes : Nat
  deriving DecidableEq

/-- Model of `parseSessionFile` (the spec's `parseFull`): scan the buffer line by
line, parse each trimmed nonempty line via the record parser, stop at the
first line that does not parse, sort the collected messages by timestamp.
`defaultSessionId` stands for `basename(filePath, '.jsonl')`. -/
def parseSessionFile (parse : List Nat → Option RawLine)
    (defaultSessionId : String) (now : Int) (file : List Nat) : Conversation :=
  let st := runSegs parse (segsWithFlags file) 0 ⟨[], "", "", 0⟩
  let msgs := sortByTs st.msgs
  { sessionId := if st.sessionId = "" then defaultSessionId else st.sessionId
    project := st.project
    messages := msgs
    startTime := (msgs.head?.map (·.timestamp)).getD now
    endTime := (msgs.getLast?.map (·.timestamp)).getD now
    processedBytes := st.lastOk }

/-- Model of `parseSessionFileFromOffset`: if `startOffset` is at least the file
size there is no new content; otherwise run the same loop over the bytes
after `startOffset`, with `lastSuccessfulOffset` expressed as an absolute
offset (initialised to `startOffset`). -/
def parseSessionFileFromOffset (parse : List Nat → Option RawLine)
    (file : List Nat) (startOffset : Nat)
    (existingSessionId existingProject : Option String) :
    List Message × Nat :=
  if file.length ≤ startOffset then ([], startOffset)
  else
    let st := runSegs parse (segsWithFlags (file.drop startOffset)) startOffset
      ⟨[], existingSessionId.getD "", existingProject.getD "", startOffset⟩
    (sortByTs st.msgs, st.lastOk)

/-- A buffer made of newline-terminated lines. -/
def joinT (lines : List (List Nat)) : List Nat :=
  lines.foldr (fun l acc => l ++ 10 :: acc) []

/-- Every line is free of newline bytes and is either blank after trimming
or accepted by the record parser: the loop walks past all of them. -/
def GoodLines (parse : List Nat → Option RawLine) (lines : List (List Nat)) : Prop :=
  ∀ l ∈ lines, (∀ b ∈ l, b ≠ 10) ∧ (trimBytes l = [] ∨ (parse (trimBytes l)).isSome)

instance (parse : List Nat → Option RawLine) (lines : List (List Nat)) :
    Decidable (GoodLines parse lines) := by
  unfold GoodLines; infer_instance

-- ===========================================================================
-- Fragment data model (`schemas.ts`)
-- ===========================================================================

/-- Modelled from the spec: `schemas.ts` is not among the core sources.
One recorded decision (`decision = what/why/confidence`); only the fields
read by the retrieval and evolution code are modelled. -/
structure Decision where
  what : String
  why : String
  deriving DecidableEq

/-- Modelled from the spec: the decisions fragment, an ordered list of
structured entries. -/
structure DecisionFragment where
  decisions : List Decision
  deriving DecidableEq

/-- Modelled from the spec: one insight entry. -/
structure Insight where
  learning : String
  context : String
  deriving DecidableEq

/-- Modelled from the spec: one gotcha entry. -/
structure Gotcha where
  issue : String
  solution : String
  deriving DecidableEq

/-- Modelled from the spec: the insights fragment. -/
structure InsightFragment where
  insights : List Insight
  gotchas : List Gotcha
  deriving DecidableEq

/-- Modelled from the spec: the focus fragment, a single ephemeral
goal+tasks+blockers record. -/
structure FocusFragment where
  current_goal : String
  active_tasks : List String
  blockers : List String
  next_steps : List String
  deriving DecidableEq

/-- Modelled from the spec: one narrative story beat. -/
structure StoryBeat where
  summary : String
  beat_type : String
  deriving DecidableEq

/-- Modelled from the spec: one memorable quote. -/
structure Quote where
  quote : String
  speaker : String
  deriving DecidableEq

/-- Modelled from the spec: the narrative fragment. -/
structure NarrativeFragment where
  story_beats : List StoryBeat
  memorable_quotes : List Quote
  deriving DecidableEq

/-- Modelled from the spec: the vocabulary fragment, a term-frequency map
(`Record<string, number>`, modelled as an insertion-ordered association
list) plus extracted concepts, technologies and file mentions. -/
structure VocabularyFragment where
  terms : List (String × Nat)
  concepts : List String
  technologies : List String
  files : List String
  deriving DecidableEq

/-- Modelled from the spec: `FragmentSet` (`AllFragments`), each field
independently nullable. -/
structure AllFragments where
  decisions : Option DecisionFragment
  insights : Option InsightFragment
  focus : Option FocusFragment
  narrative : Option NarrativeFragment
  vocabulary : Option VocabularyFragment
  deriving DecidableEq

/-- Modelled from the spec: `emptyFragments()` — the empty `FragmentSet`
used on first use and for an empty horizontal window. -/
def emptyFragments : AllFragments :=
  { decisions := none, insights := none, focus := none, narrative := none,
    vocabulary := none }

/-- Modelled from the spec: `emptyVocabulary()`. -/
def emptyVocabulary : VocabularyFragment :=
  { terms := [], concepts := [], technologies := [], files := [] }

-- ===========================================================================
-- Horizontal evolution (`horizontal.ts`)
-- ===========================================================================

/-- A per-session fragment snapshot (`SessionSnapshot`). -/
structure SessionSnapshot where
  sessionId : String
  timestamp : Int
  fragments : AllFragments
  deriving DecidableEq

/-- Model of `HorizontalEvolutionConfig`, restricted to the fields that influence
the data path (`apiKey`, `baseUrl`, `model` and `timeoutMs` only configure
the collaborator client). -/
structure HorizontalEvolutionConfig where
  windowSize : Option Nat
  currentFragments : Option AllFragments
  deriving DecidableEq

/-- The reasoning collaborator for a horizontal pass: for each fragment
type, the validated object and token usage that `generateObject` returns
for the given window and baseline (the relevant parts of the prompt).
A thrown collaborator error aborts the whole `Promise.all`, so results
returned by `evolveHorizontal` correspond to successful calls. -/
structure HorizontalCollab where
  decisions : List SessionSnapshot → Option DecisionFragment → DecisionFragment × Nat
  insights : List SessionSnapshot → Option InsightFragment → InsightFragment × Nat
  focus : List SessionSnapshot → Option FocusFragment → FocusFragment × Nat
  narrative : List SessionSnapshot → Option NarrativeFragment → NarrativeFragment × Nat

/-- Model of `HorizontalEvolutionResult`, instrumented with `collabCalls`, the
number of collaborator (`generateObject`) invocations the call performs:
4 on the general path, 0 on the empty-window and bootstrap paths.
`musings` reads a field absent from the decision schema, hence `none`. -/
structure HorizontalEvolutionResult where
  current : AllFragments
  tokensUsed : Nat
  sessionsIncluded : Nat
  musings : Option String
  collabCalls : Nat
  deriving DecidableEq

/-- Stable descending insertion by timestamp (`(a, b) => b.timestamp -
a.timestamp`; JS sort is stable). -/
def insertDescTs (s : SessionSnapshot) : List SessionSnapshot → List SessionSnapshot
  | [] => [s]
  | x :: xs => if s.timestamp < x.timestamp then x :: insertDescTs s xs else s :: x :: xs

/-- Stable newest-first sort of snapshots by timestamp. -/
def sortDescTs (l : List SessionSnapshot) : List SessionSnapshot :=
  l.foldr insertDescTs []

/-- The effective window size: `config.windowSize || 3` (0 is falsy). -/
def effectiveWindowSize (cfg : HorizontalEvolutionConfig) : Nat :=
  match cfg.windowSize with
  | some n => if n = 0 then 3 else n
  | none => 3

/-- The selected window: the `windowSize` most recent snapshots. -/
def windowOf (snapshots : List SessionSnapshot) (cfg : HorizontalEvolutionConfig) :
    List SessionSnapshot :=
  (sortDescTs snapshots).take (effectiveWindowSize cfg)

/-- Model of `evolveHorizontal`: empty window ⇒ empty fragments and no calls; a
single snapshot with no baseline ⇒ bootstrap (pure adoption, no calls);
otherwise one collaborator call per fragment type, with the vocabulary of
the result set to `null` (the source defers algorithmic vocabulary merging
to later). -/
def evolveHorizontal (collab : HorizontalCollab)
    (snapshots : List SessionSnapshot) (cfg : HorizontalEvolutionConfig) :
    HorizontalEvolutionResult :=
  let window := windowOf snapshots cfg
  match window with
  | [] =>
    { current := emptyFragments, tokensUsed := 0, sessionsIncluded := 0,
      musings := none, collabCalls := 0 }
  | w0 :: wrest =>
    if wrest = [] ∧ cfg.currentFragments = none then
      { current := w0.fragments, tokensUsed := 0, sessionsIncluded := 1,
        musings := none, collabCalls := 0 }
    else
      let d := collab.decisions window (cfg.currentFragments.bind (·.decisions))
      let i := collab.insights window (cfg.currentFragments.bind (·.insights))
      let f := collab.focus window (cfg.currentFragments.bind (·.focus))
      let n := collab.narrative window (cfg.currentFragments.bind (·.narrative))
      { current :=
          { decisions := some d.1, insights := some i.1, focus := some f.1,
            narrative := some n.1, vocabulary := none },
        tokensUsed := d.2 + i.2 + f.2 + n.2,
        sessionsIncluded := window.length,
        musings := none,
        collabCalls := 4 }

-- ===========================================================================
-- Vertical evolution (`evolve.ts`)
-- ===========================================================================

/-- Model of `EvolutionContext`. -/
structure EvolutionContext where
  messages : List Message
  allFragments : AllFragments
  project : Option String
  sessionId : Option String

/-- Model of `EvolutionResult<T>`. -/
structure EvolutionResult (α : Type) where
  success : Bool
  data : Option α
  error : Option String
  tokensUsed : Option Nat
  sourceLinks : List SourceLink
  deriving DecidableEq

/-- The reasoning collaborator for one vertical pass: the outcome of the
single `generateObject` call each of `evolveDecisions` … `evolveNarrative`
makes (`Except.error` carries the caught exception's message). -/
structure VerticalCollab where
  decisions : Except String (DecisionFragment × Nat)
  insights : Except String (InsightFragment × Nat)
  focus : Except String (FocusFragment × Nat)
  narrative : Except String (NarrativeFragment × Nat)

/-- The shared `try`/`catch` wrapper of `evolveDecisions`,
`evolveInsights`, `evolveFocus` and `evolveNarrative`: a successful call
yields the validated object, token usage and the messages' source links;
a failure yields `success: false` with the error message. `currentState`
and the rest of `context` shape only the prompt. -/
def evolveOne {α : Type} (context : EvolutionContext)
    (outcome : Except String (α × Nat)) : EvolutionResult α :=
  match outcome with
  | .ok (v, tok) =>
    { success := true, data := some v, error := none, tokensUsed := some tok,
      sourceLinks := context.messages.map (·.source) }
  | .error e =>
    { success := false, data := none, error := some e, tokensUsed := none,
      sourceLinks := [] }

/-- Model of `evolveDecisions`. -/
def evolveDecisions (_currentState : Option DecisionFragment)
    (context : EvolutionContext) (outcome : Except String (DecisionFragment × Nat)) :
    EvolutionResult DecisionFragment :=
  evolveOne context outcome

/-- Model of `evolveInsights`. -/
def evolveInsights (_currentState : Option InsightFragment)
    (context : EvolutionContext) (outcome : Except String (InsightFragment × Nat)) :
    EvolutionResult InsightFragment :=
  evolveOne context outcome

/-- Model of `evolveFocus`. -/
def evolveFocus (_currentState : Option FocusFragment)
    (context : EvolutionContext) (outcome : Except String (FocusFragment × Nat)) :
    EvolutionResult FocusFragment :=
  evolveOne context outcome

/-- Model of `evolveNarrative`. -/
def evolveNarrative (_currentState : Option NarrativeFragment)
    (context : EvolutionContext) (outcome : Except String (NarrativeFragment × Nat)) :
    EvolutionResult NarrativeFragment :=
  evolveOne context outcome

/-- Character class `[^a-z0-9\s-]` complement test: characters kept by the
vocabulary tokenizer's `replace`. -/
def isVocabKeep (c : Char) : Bool :=
  (('a' ≤ c ∧ c ≤ 'z') ∨ ('0' ≤ c ∧ c ≤ '9') ∨ c = '-' ∨ isWsChar c)

/-- Model of `allText.replace(/[^a-z0-9\s-]/g, ' ')`. -/
def vocabClean (s : String) : String :=
  String.mk (s.toList.map (fun c => if isVocabKeep c then c else ' '))

/-- Model of `terms[token] = (terms[token] || 0) + 1`, preserving JS object key
insertion order. -/
def bumpTerm : List (String × Nat) → String → List (String × Nat)
  | [], k => [(k, 1)]
  | (a, n) :: rest, k =>
    if a = k then (a, n + 1) :: rest else (a, n) :: bumpTerm rest k

/-- Model of `[...new Set(l)]`: deduplicate keeping first occurrences. -/
def dedupKeepFirst (l : List String) : List String :=
  l.foldl (fun acc x => if acc.contains x then acc else acc ++ [x]) []

/-- A word character, `\w` / `[a-zA-Z0-9_]`. -/
def isWordChar (c : Char) : Bool :=
  ('a' ≤ c ∧ c ≤ 'z') ∨ ('A' ≤ c ∧ c ≤ 'Z') ∨ ('0' ≤ c ∧ c ≤ '9') ∨ c = '_'

/-- Word-character test lifted to an optional character (`none` is the
out-of-string context at either end). -/
def isWordO : Option Char → Bool
  | none => false
  | some c => isWordChar c

/-- The file-extension alternatives of the file-mention pattern, in source
order (order matters: `ts` is tried before `tsx`). -/
def fileExts : List String :=
  ["ts", "js", "tsx", "jsx", "py", "rs", "go", "md", "json", "yaml", "zig", "gd"]

/-- A character matched by `[a-z0-9_-]` (the input text is already
lowercased, so the `/i` flag is inert). -/
def isFileRunChar (c : Char) : Bool :=
  ('a' ≤ c ∧ c ≤ 'z') ∨ ('0' ≤ c ∧ c ≤ '9') ∨ c = '_' ∨ c = '-'

/-- Try the extension alternatives in order as literal prefixes. -/
def firstExt : List String → List Char → Option String
  | [], _ => none
  | e :: rest, s => if e.toList.isPrefixOf s then some e else firstExt rest s

/-- Attempt `[a-z0-9_-]+\.(ts|js|…)` at the current position: a maximal
nonempty run of run-characters, a literal dot, then the first matching
extension alternative. -/
def fileHere (s : List Char) : Option (List Char) :=
  let run := s.takeWhile isFileRunChar
  if run = [] then none
  else match s.drop run.length with
    | '.' :: after =>
      match firstExt fileExts after with
      | some e => some (run ++ '.' :: e.toList)
      | none => none
    | _ => none

/-- Global scan for `allText.match(/[a-z0-9_-]+\.(ts|…)/gi)`: successive
non-overlapping leftmost matches; on failure advance one position. Fuel is
the input length, ample since every step consumes at least one character. -/
def scanFiles : Nat → List Char → List String
  | 0, _ => []
  | _ + 1, [] => []
  | fuel + 1, c :: rest =>
    match fileHere (c :: rest) with
    | some m => String.mk m :: scanFiles fuel ((c :: rest).drop m.length)
    | none => scanFiles fuel rest

/-- The technology keywords of `techPatterns`, in source order. -/
def techKeywords : List String :=
  ["typescript", "javascript", "python", "rust", "go", "react", "svelte",
   "node", "npm", "git", "docker", "claude", "gpt", "llm", "ai", "zod", "zontax"]

/-- Try the technology alternatives in order at the current position,
requiring a word boundary on both sides (`\b(...)\b`). -/
def techHere (prev : Option Char) (s : List Char) : Option String :=
  if isWordO prev then none
  else
    (techKeywords.filter
      (fun k => k.toList.isPrefixOf s ∧ ¬ isWordO ((s.drop k.toList.length).head?))).head?

/-- Global scan for `allText.match(techPatterns)`; same advance discipline
as `scanFiles`, threading the previous character for the `\b` test. -/
def scanTech : Nat → Option Char → List Char → List String
  | 0, _, _ => []
  | _ + 1, _, [] => []
  | fuel + 1, prev, c :: rest =>
    match techHere prev (c :: rest) with
    | some k =>
      k :: scanTech fuel ((c :: rest).take k.toList.length).getLast? ((c :: rest).drop k.toList.length)
    | none => scanTech fuel (some c) rest

/-- Model of `evolveVocabulary`: local, deterministic vocabulary evolution — term
frequency accumulation over cleaned lowercase tokens, plus file-mention
and technology extraction merged additively (set-union keeping first
occurrences). No collaborator call; `tokensUsed` is never set. -/
def evolveVocabulary (currentState : Option VocabularyFragment)
    (context : EvolutionContext) : EvolutionResult VocabularyFragment :=
  let state := currentState.getD emptyVocabulary
  let allText := jsToLower (String.intercalate " " (context.messages.map (·.content)))
  let tokens := (jsSplitWs (vocabClean allText)).filter
    (fun t => 2 < t.length ∧ t.length < 30)
  let terms := tokens.foldl bumpTerm state.terms
  let filePatterns := scanFiles allText.toList.length allText.toList
  let files := dedupKeepFirst (state.files ++ filePatterns)
  let techMatches := scanTech allText.toList.length none allText.toList
  let technologies := dedupKeepFirst (state.technologies ++ techMatches.map jsToLower)
  { success := true,
    data := some
      { terms := terms, concepts := state.concepts,
        technologies := technologies, files := files },
    error := none, tokensUsed := none,
    sourceLinks := context.messages.map (·.source) }

/-- Model of `BatchEvolutionResult`. -/
structure BatchEvolutionResult where
  fragments : AllFragments
  tokensUsed : Nat
  errors : List String
  sourceLinks : List SourceLink
  deriving DecidableEq

/-- Model of `evolveAllFragments`: fan out the four collaborator-backed fragment
types (independently), compute vocabulary locally, record per-type errors,
and fall back to the prior value (`result.data || current`) for any type
whose call failed. -/
def evolveAllFragments (currentFragments : AllFragments)
    (context : EvolutionContext) (collab : VerticalCollab) : BatchEvolutionResult :=
  let contextWithFragments := { context with allFragments := currentFragments }
  let decisionsResult := evolveDecisions currentFragments.decisions contextWithFragments collab.decisions
  let insightsResult := evolveInsights currentFragments.insights contextWithFragments collab.insights
  let focusResult := evolveFocus currentFragments.focus contextWithFragments collab.focus
  let narrativeResult := evolveNarrative currentFragments.narrative contextWithFragments collab.narrative
  let vocabularyResult := evolveVocabulary currentFragments.vocabulary context
  let errors :=
    (if decisionsResult.success then [] else ["decisions: " ++ decisionsResult.error.getD ""]) ++
    (if insightsResult.success then [] else ["insights: " ++ insightsResult.error.getD ""]) ++
    (if focusResult.success then [] else ["focus: " ++ focusResult.error.getD ""]) ++
    (if narrativeResult.success then [] else ["narrative: " ++ narrativeResult.error.getD ""])
  let tokensUsed := decisionsResult.tokensUsed.getD 0 + insightsResult.tokensUsed.getD 0 +
    focusResult.tokensUsed.getD 0 + narrativeResult.tokensUsed.getD 0
  { fragments :=
      { decisions := decisionsResult.data.or currentFragments.decisions
        insights := insightsResult.data.or currentFragments.insights
        focus := focusResult.data.or currentFragments.focus
        narrative := narrativeResult.data.or currentFragments.narrative
        vocabulary := vocabularyResult.data.or currentFragments.vocabulary },
    tokensUsed := tokensUsed,
    errors := errors,
    sourceLinks := decisionsResult.sourceLinks ++ insightsResult.sourceLinks ++
      focusResult.sourceLinks ++ narrativeResult.sourceLinks ++ vocabularyResult.sourceLinks }

-- ===========================================================================
-- ECMAScript regular expressions (the subset reachable from `new RegExp`)
-- ===========================================================================

/-!
The keyword scorer interpolates query terms into `new RegExp`. We model
the core of the ECMAScript (non-unicode, Annex B) `Pattern` grammar:
character atoms, escapes, `.`, character classes, groups, alternation,
the quantifiers `*` `+` `?` with an optional lazy `?`, and the assertions
`^` `$` `\b` `\B`. Brace quantifiers are treated as literal braces (the
Annex B fallback for `{` not forming a quantifier); `(?` group modifiers
are not modelled. No theorem exercises those corners. The essential
grammar rule is modelled exactly: a quantifier must follow a quantifiable
atom — following an assertion, another quantifier or nothing is a
`SyntaxError` ("nothing to repeat").
-/

/-- The predefined character-class escapes. -/
inductive PredK where
  | d | nd | w | nw | s | ns
  deriving DecidableEq

/-- The assertion kinds. -/
inductive AKind where
  | wordB | nonWordB | bol | eol
  deriving DecidableEq

/-- A quantifier: minimum count, optional maximum, laziness. -/
structure RQuant where
  min : Nat
  max : Option Nat
  lazy : Bool
  deriving DecidableEq

/-- One item of a character class. -/
inductive CItem where
  | cOne (c : Char)
  | cRange (lo hi : Char)
  | cPred (p : PredK)
  deriving DecidableEq

mutual
/-- A quantifiable regex atom. -/
inductive RAtom where
  | rch (c : Char)
  | rdot
  | rcls (neg : Bool) (items : List CItem)
  | rgrp (r : Reg)
  | rpred (p : PredK)

/-- A parsed regex. -/
inductive Reg where
  | rempty
  | rcat (a b : Reg)
  | ralt (a b : Reg)
  | rassert (k : AKind)
  | ratom (a : RAtom) (q : Option RQuant)
end

/-- A raw character-class element as scanned: a plain or an escaped
character. -/
inductive ClsRaw where
  | raw (c : Char)
  | esc (c : Char)
  deriving DecidableEq

/-- Model of `\d \D \w \W \s \S`. -/
def escPred? (c : Char) : Option PredK :=
  if c = 'd' then some .d else if c = 'D' then some .nd
  else if c = 'w' then some .w else if c = 'W' then some .nw
  else if c = 's' then some .s else if c = 'S' then some .ns
  else none

/-- The character denoted by an escaped literal (`\n`, `\t`, …; inside a
class `\b` is backspace); any other escaped character denotes itself. -/
def escCharVal (c : Char) : Char :=
  if c = 'n' then '\n' else if c = 't' then '\t' else if c = 'r' then '\r'
  else if c = 'f' then '\x0c' else if c = 'v' then '\x0b'
  else if c = '0' then '\x00' else c

/-- Is this raw class element a single literal character (a possible range
endpoint)? -/
def clsCharVal : ClsRaw → Option Char
  | .raw c => some c
  | .esc c => if c = 'b' then some '\x08' else
      if (escPred? c).isSome then none else some (escCharVal c)

/-- The class item denoted by a single scanned element. -/
def clsItemOf : ClsRaw → CItem
  | .raw c => .cOne c
  | .esc c =>
    match escPred? c with
    | some p => .cPred p
    | none => .cOne (if c = 'b' then '\x08' else escCharVal c)

/-- Assemble scanned class elements into class items, recognising
`x-y` ranges between single characters (an out-of-order range is a
`SyntaxError`); a `-` not between two single characters is literal. -/
def mkClassItems : List ClsRaw → Option (List CItem)
  | [] => some []
  | x :: ClsRaw.raw '-' :: y :: rest =>
    match clsCharVal x, clsCharVal y with
    | some lo, some hi =>
      if hi < lo then none
      else (mkClassItems rest).map (fun its => .cRange lo hi :: its)
    | _, _ =>
      (mkClassItems (ClsRaw.raw '-' :: y :: rest)).map (fun its => clsItemOf x :: its)
  | x :: xs => (mkClassItems xs).map (fun its => clsItemOf x :: its)

/-- One alternative under construction: completed alternatives in order,
and the current sequence's elements in reverse. -/
structure PFrame where
  alts : List Reg
  seq : List Reg

/-- Close the current sequence. -/
def finishSeq (seq : List Reg) : Reg :=
  seq.reverse.foldl .rcat .rempty

/-- Close a frame into a regex. -/
def finishFrame (f : PFrame) : Reg :=
  match f.alts ++ [finishSeq f.seq] with
  | [] => .rempty
  | x :: xs => xs.foldl .ralt x

/-- Apply `*` or `+` to the last element of the sequence; fails with
"nothing to repeat" unless it is an unquantified atom. -/
def applyQuant (seq : List Reg) (mn : Nat) (mx : Option Nat) : Option (List Reg) :=
  match seq with
  | .ratom a none :: rest => some (.ratom a (some ⟨mn, mx, false⟩) :: rest)
  | _ => none

/-- Apply `?`: either a fresh `{0,1}` quantifier on an unquantified atom,
or the lazy marker on a quantified one. -/
def applyQuestion (seq : List Reg) : Option (List Reg) :=
  match seq with
  | .ratom a none :: rest => some (.ratom a (some ⟨0, some 1, false⟩) :: rest)
  | .ratom a (some q) :: rest =>
    if q.lazy then none else some (.ratom a (some { q with lazy := true }) :: rest)
  | _ => none

/-- The recursive-descent state machine for `new RegExp(pattern)`:
`stack` holds one frame per open group (head innermost), `cls` the
character class being scanned (negation flag, at-start flag, reversed
elements). Each step consumes one or two characters, so the recursion is
structural. `none` is a `SyntaxError`. -/
def rparse : List Char → List PFrame → Option (Bool × Bool × List ClsRaw) → Option Reg
  | [], _, some _ => none
  | [], [f], none => some (finishFrame f)
  | [], _, none => none
  | '\\' :: [], _, _ => none
  | '\\' :: c :: rest, stack, some (neg, _, items) =>
    rparse rest stack (some (neg, false, .esc c :: items))
  | '\\' :: c :: rest, stack, none =>
    match stack with
    | [] => none
    | f :: fs =>
      if c = 'b' then rparse rest ({ f with seq := .rassert .wordB :: f.seq } :: fs) none
      else if c = 'B' then rparse rest ({ f with seq := .rassert .nonWordB :: f.seq } :: fs) none
      else
        match escPred? c with
        | some p => rparse rest ({ f with seq := .ratom (.rpred p) none :: f.seq } :: fs) none
        | none => rparse rest ({ f with seq := .ratom (.rch (escCharVal c)) none :: f.seq } :: fs) none
  | c :: rest, stack, some (neg, atStart, items) =>
    if c = ']' then
      match mkClassItems items.reverse, stack with
      | some its, f :: fs =>
        rparse rest ({ f with seq := .ratom (.rcls neg its) none :: f.seq } :: fs) none
      | _, _ => none
    else if c = '^' ∧ atStart then rparse rest stack (some (true, false, items))
    else rparse rest stack (some (neg, false, .raw c :: items))
  | c :: rest, stack, none =>
    match stack with
    | [] => none
    | f :: fs =>
      if c = '|' then
        rparse rest (⟨f.alts ++ [finishSeq f.seq], []⟩ :: fs) none
      else if c = '(' then rparse rest (⟨[], []⟩ :: f :: fs) none
      else if c = ')' then
        match fs with
        | [] => none
        | g :: gs =>
          rparse rest ({ g with seq := .ratom (.rgrp (finishFrame f)) none :: g.seq } :: gs) none
      else if c = '[' then rparse rest (f :: fs) (some (false, true, []))
      else if c = '^' then rparse rest ({ f with seq := .rassert .bol :: f.seq } :: fs) none
      else if c = '$' then rparse rest ({ f with seq := .rassert .eol :: f.seq } :: fs) none
      else if c = '.' then rparse rest ({ f with seq := .ratom .rdot none :: f.seq } :: fs) none
      else if c = '*' then
        match applyQuant f.seq 0 none with
        | some seq' => rparse rest ({ f with seq := seq' } :: fs) none
        | none => none
      else if c = '+' then
        match applyQuant f.seq 1 none with
        | some seq' => rparse rest ({ f with seq := seq' } :: fs) none
        | none => none
      else if c = '?' then
        match applyQuestion f.seq with
        | some seq' => rparse rest ({ f with seq := seq' } :: fs) none
        | none => none
      else rparse rest ({ f with seq := .ratom (.rch c) none :: f.seq } :: fs) none

/-- Model of `new RegExp(pattern)`: `some` is the compiled regex, `none` a
`SyntaxError`. -/
def compileRegex (pat : List Char) : Option Reg :=
  rparse pat [⟨[], []⟩] none

/-- Membership of a character in a predefined class. -/
def predMatch : PredK → Char → Bool
  | .d, c => '0' ≤ c ∧ c ≤ '9'
  | .nd, c => ¬ ('0' ≤ c ∧ c ≤ '9')
  | .w, c => isWordChar c
  | .nw, c => ¬ isWordChar c
  | .s, c => isWsChar c
  | .ns, c => ¬ isWsChar c

/-- Membership in one class item. -/
def classItemMatch (c : Char) : CItem → Bool
  | .cOne c' => c = c'
  | .cRange lo hi => lo ≤ c ∧ c ≤ hi
  | .cPred p => predMatch p c

/-- Evaluation of an assertion against the surrounding context (`prev` is
the character before the current position, `s` the remaining input). -/
def assertHolds : AKind → Option Char → List Char → Bool
  | .wordB, prev, s => isWordO prev != isWordO s.head?
  | .nonWordB, prev, s => isWordO prev == isWordO s.head?
  | .bol, prev, _ => prev.isNone
  | .eol, _, s => s.isEmpty

/-- Fueled backtracking matcher in continuation-passing style: does `r`
match a prefix of `s` (with `prev` the preceding character), continuing
with `k`? Quantifiers are unrolled one instance at a time; the fuel bounds
backtracking and is chosen amply for the patterns at issue (exhaustion
yields `false`). -/
def mrun : Nat → Reg → Option Char → List Char → (Option Char → List Char → Bool) → Bool
  | 0, _, _, _, _ => false
  | fuel + 1, r, prev, s, k =>
    match r with
    | .rempty => k prev s
    | .rcat a b => mrun fuel a prev s (fun p' s' => mrun fuel b p' s' k)
    | .ralt a b => mrun fuel a prev s k || mrun fuel b prev s k
    | .rassert ak => assertHolds ak prev s && k prev s
    | .ratom a none =>
      match a with
      | .rch c =>
        match s with
        | c' :: rest => c = c' && k (some c') rest
        | [] => false
      | .rdot =>
        match s with
        | c' :: rest => ¬ (c' = '\n' ∨ c' = '\r') && k (some c') rest
        | [] => false
      | .rpred p =>
        match s with
        | c' :: rest => predMatch p c' && k (some c') rest
        | [] => false
      | .rcls neg items =>
        match s with
        | c' :: rest => (items.any (classItemMatch c') != neg) && k (some c') rest
        | [] => false
      | .rgrp r' => mrun fuel r' prev s k
    | .ratom a (some q) =>
      if q.max = some 0 then k prev s
      else
        let qNext : RQuant := ⟨q.min - 1, q.max.map (· - 1), q.lazy⟩
        let more := fun (p' : Option Char) (s' : List Char) =>
          mrun fuel (.ratom a (some qNext)) p' s' k
        if 0 < q.min then mrun fuel (.ratom a none) prev s more
        else if q.lazy then k prev s || mrun fuel (.ratom a none) prev s more
        else mrun fuel (.ratom a none) prev s more || k prev s

/-- Search for a match at every start position, advancing one character at
a time (the behaviour of `RegExp.prototype.test`). -/
def rsearchGo (r : Reg) (fuel : Nat) : Option Char → List Char → Bool
  | prev, [] => mrun fuel r prev [] (fun _ _ => true)
  | prev, c :: rest =>
    mrun fuel r prev (c :: rest) (fun _ _ => true) || rsearchGo r fuel (some c) rest

/-- A size measure on regexes, used only to provision matcher fuel. -/
def rsize : Reg → Nat
  | .rempty => 1
  | .rcat a b => rsize a + rsize b + 1
  | .ralt a b => rsize a + rsize b + 1
  | .rassert _ => 1
  | .ratom (.rgrp r) _ => rsize r + 2
  | .ratom _ _ => 2

/-- Model of `regex.test(text)`. -/
def rtest (r : Reg) (text : List Char) : Bool :=
  rsearchGo r ((rsize r + 2) * (text.length + 2) * 16 + 64) none text

-- ===========================================================================
-- Retrieval engine (`memory.ts`)
-- ===========================================================================

/-- The JS exception raised by an invalid `new RegExp` pattern. -/
inductive JsRegexError where
  | invalidRegex
  deriving DecidableEq

instance {ε α : Type} [DecidableEq ε] [DecidableEq α] : DecidableEq (Except ε α) :=
  fun a b =>
    match a, b with
    | .ok x, .ok y => if h : x = y then isTrue (by rw [h]) else isFalse (by simp [h])
    | .error x, .error y => if h : x = y then isTrue (by rw [h]) else isFalse (by simp [h])
    | .ok _, .error _ => isFalse (by simp)
    | .error _, .ok _ => isFalse (by simp)

/-- The pattern `` `\b${term}\b` `` built by `scoreMatch`. -/
def wbPattern (t : String) : List Char :=
  '\\' :: 'b' :: (t.toList ++ ['\\', 'b'])

/-- The loop of `scoreMatch` over the query terms: +10 per term occurring
as a substring, +5 more when `new RegExp(`\b${term}\b`)` also matches; a
term whose interpolated pattern fails to compile throws. -/
def scoreMatchGo (textLower : String) : List String → Except JsRegexError Nat
  | [] => .ok 0
  | t :: rest =>
    if jsIncludes textLower t then
      match compileRegex (wbPattern t) with
      | none => .error .invalidRegex
      | some r =>
        match scoreMatchGo textLower rest with
        | .ok sc => .ok (10 + (if rtest r textLower.toList then 5 else 0) + sc)
        | .error e => .error e
    else scoreMatchGo textLower rest

/-- Model of `scoreMatch(queryTerms, text)`. -/
def scoreMatch (queryTerms : List String) (text : String) : Except JsRegexError Nat :=
  scoreMatchGo (jsToLower text) queryTerms

/-- A term fully matches an already-lowercased text when it occurs as a
substring and its word-boundary regex also matches (the 10-point and
5-point conditions of `scoreMatch` both hold). -/
def termFullLower (t tl : String) : Bool :=
  jsIncludes tl t &&
    (match compileRegex (wbPattern t) with
     | some r => rtest r tl.toList
     | none => false)

/-- A term fully matches a text (both `scoreMatch` conditions hold against
the lowercased text). -/
def termFullyMatches (t : String) (text : String) : Bool :=
  termFullLower t (jsToLower text)

/-- An embedding vector, with exact rational components. -/
def Vec := List ℚ
  deriving DecidableEq

/-- The entry types of a `SearchResult`. -/
inductive EntryType where
  | decision | insight | gotcha | narrative | quote | source
  deriving DecidableEq

/-- The string name of an entry type, as passed to
`calculateFragmentHash`. -/
def entryTypeName : EntryType → String
  | .decision => "decision"
  | .insight => "insight"
  | .gotcha => "gotcha"
  | .narrative => "narrative"
  | .quote => "quote"
  | .source => "source"

/-- The deterministic pre-hash string of `calculateFragmentHash`:
`` `${type}:${content}:${context || ''}` ``. The SHA-256 digest applied to
it is a function of this string, so equal pre-hash strings give equal
deduplication/embedding keys. -/
def calculateFragmentHashData (type content : String) (context : Option String) : String :=
  type ++ ":" ++ content ++ ":" ++ (match context with
    | some s => jsOrStr s ""
    | none => "")

/-- Model of `DEFAULT_VECTOR_THRESHOLD`. -/
def DEFAULT_VECTOR_THRESHOLD : ℚ := 6 / 10

/-- The vector acceptance threshold on the 0–100 score scale:
`(config.vectorThreshold ?? DEFAULT_VECTOR_THRESHOLD) * 100`. -/
def effectiveVectorThreshold (cfgThreshold : Option ℚ) : ℚ :=
  cfgThreshold.getD DEFAULT_VECTOR_THRESHOLD * 100

/-- One search hit. -/
structure SearchResult where
  project : String
  rtype : EntryType
  content : String
  context : Option String
  score : ℚ
  timestamp : Option Int
  filePath : Option String
  deriving DecidableEq

/-- Search options: `projects` and `types` filters, a `limit`, whether a
Jina API key is supplied, and the `all` override. -/
structure SearchOptions where
  projects : Option (List String)
  types : Option (List EntryType)
  limit : Option Nat
  hasJinaKey : Bool
  all : Bool
  deriving DecidableEq

/-- The default (absent) options object. -/
def SearchOptions.default : SearchOptions :=
  { projects := none, types := none, limit := none, hasJinaKey := false, all := false }

/-- One indexed source-code chunk. -/
structure Chunk where
  hash : String
  ctype : String
  content : Option String
  startLine : Nat
  endLine : Nat
  deriving DecidableEq

/-- A project's source manifest: relative path ↦ chunk list. -/
structure SourceManifest where
  files : List (String × List Chunk)
  deriving DecidableEq

/-- A project's source vector store: parallel `hashes`/`vectors` arrays. -/
structure SourceVectorData where
  hashes : List String
  vectors : List Vec
  deriving DecidableEq

/-- The in-memory view of one project's persisted state, as loaded by
`loadProjectMemory` (restricted to the fields `searchMemory` reads). -/
structure ProjectMemoryM where
  current : AllFragments
  lastUpdated : Int
  sessionSnapshots : List SessionSnapshot

/-- One project's stores: the memory document (`none` when
`loadProjectMemory` yields `null`), the fragment vector store, and the
source-index stores. -/
structure ProjRecord where
  memory : Option ProjectMemoryM
  vectors : List (String × Vec)
  sourceManifest : Option SourceManifest
  sourceVectors : Option SourceVectorData

/-- The memory index: project name ↦ project stores, in
`Object.entries` order. -/
def SearchDb := List (String × ProjRecord)

/-- Look up a fragment vector by content hash. -/
def lookupVec (vectors : List (String × Vec)) (hash : String) : Option Vec :=
  (vectors.find? (fun p => p.1 = hash)).map (·.2)

/-- Model of `hashToVectorIndex.get(hash)` where the map was populated by
`Map.set` over the `hashes` array (a later duplicate overwrites an
earlier one). -/
def lookupHashIndex (hashes : List String) (hash : String) : Option Nat :=
  ((hashes.enum.filter (fun p => p.2 = hash)).getLast?).map (fun p => p.1)

/-- Model of `query.trim().split(/\s+/).length`. -/
def wordCountOf (q : String) : Nat :=
  (jsSplitWs (jsTrim q)).length

/-- Model of `query.toLowerCase().split(/\s+/).filter(t => t.length > 2)`. -/
def queryTermsOf (q : String) : List String :=
  (jsSplitWs (jsToLower q)).filter (fun t => 2 < t.length)

/-- The query vector after routing: short queries (≤ 2 words) never
request an embedding; longer queries use the embedding service's answer
(`embed = none` models an unavailable key path is separate, a thrown or
empty embedding response). -/
def routedQueryVector (q : String) (opts : SearchOptions) (embed : Option Vec) : Option Vec :=
  if wordCountOf q ≤ 2 then none
  else if opts.hasJinaKey then embed else none

/-- The shared per-entry scoring-and-threshold block of `searchMemory`:
with both a query vector and an entry vector, the score is the cosine
similarity × 100 and the threshold the configured vector threshold;
otherwise the score is `scoreMatch × 10` against a threshold of
`queryTerms.length × 150`. Returns the raw score (before any recency
bonus) and whether the entry is accepted. -/
def evalEntry (cosSim : Vec → Vec → ℚ) (vth : ℚ) (queryVector entryVec : Option Vec)
    (queryTerms : List String) (text : String) : Except JsRegexError (ℚ × Bool) :=
  match queryVector, entryVec with
  | some qv, some vv =>
    let score := cosSim qv vv * 100
    .ok (score, score ≥ vth)
  | _, _ =>
    match scoreMatch queryTerms text with
    | .ok k =>
      let score : ℚ := (k : ℚ) * 10
      .ok (score, score ≥ (queryTerms.length : ℚ) * 150)
    | .error e => .error e

/-- Model of `!typeFilter || typeFilter.includes(t)`. -/
def typeAllowed (opts : SearchOptions) (t : EntryType) : Bool :=
  match opts.types with
  | none => true
  | some l => l.contains t

/-- The accumulating state of the search: the `seen` hash set and the
result list in push order. -/
def SearchSt := List String × List SearchResult

/-- The body of `searchFragments`/`searchCurrentFragments` for one list of
fragment items: hash, dedupe against `seen`, score via `evalEntry`, and on
acceptance record the hash and push the hit with the recency bonus
added. -/
def searchFragItems {α : Type} (cosSim : Vec → Vec → ℚ) (vth : ℚ)
    (queryVector : Option Vec) (queryTerms : List String)
    (vectors : List (String × Vec)) (projectName : String) (etype : EntryType)
    (recencyBonus : ℚ) (timestamp : Option Int)
    (items : List α) (getContent : α → String) (getContext : Option (α → String))
    (st : SearchSt) : Except JsRegexError SearchSt :=
  items.foldlM
    (fun (st : SearchSt) item => do
      let content := getContent item
      let context := getContext.map (fun g => g item)
      let hash := calculateFragmentHashData (entryTypeName etype) content context
      if st.1.contains hash then pure st
      else do
        let (score, accepted) ← evalEntry cosSim vth queryVector
          (lookupVec vectors hash) queryTerms (content ++ " " ++ context.getD "")
        if accepted then
          pure (hash :: st.1, st.2 ++
            [{ project := projectName, rtype := etype, content := content,
               context := context, score := score + recencyBonus,
               timestamp := timestamp, filePath := none }])
        else pure st)
    st

/-- Process one session snapshot: decisions, insights, gotchas, narrative
beats and quotes, each guarded by the type filter, with the snapshot's
recency bonus. -/
def searchSnapshot (cosSim : Vec → Vec → ℚ) (vth : ℚ) (queryVector : Option Vec)
    (queryTerms : List String) (opts : SearchOptions)
    (vectors : List (String × Vec)) (projectName : String)
    (oldestTime : Int) (timeRange : Int) (snapshot : SessionSnapshot)
    (st : SearchSt) : Except JsRegexError SearchSt := do
  let recencyBonus : ℚ := ((snapshot.timestamp - oldestTime : Int) : ℚ) / (timeRange : ℚ) * 20
  let ts := some snapshot.timestamp
  let mut0 := st
  let mut1 ← if typeAllowed opts .decision then
      searchFragItems cosSim vth queryVector queryTerms vectors projectName .decision
        recencyBonus ts ((snapshot.fragments.decisions.map (·.decisions)).getD [])
        (·.what) (some (·.why)) mut0
    else pure mut0
  let mut2 ← if typeAllowed opts .insight then
      searchFragItems cosSim vth queryVector queryTerms vectors projectName .insight
        recencyBonus ts ((snapshot.fragments.insights.map (·.insights)).getD [])
        (·.learning) (some (·.context)) mut1
    else pure mut1
  let mut3 ← if typeAllowed opts .insight then
      searchFragItems cosSim vth queryVector queryTerms vectors projectName .gotcha
        recencyBonus ts ((snapshot.fragments.insights.map (·.gotchas)).getD [])
        (·.issue) (some (·.solution)) mut2
    else pure mut2
  let mut4 ← if typeAllowed opts .narrative then
      searchFragItems cosSim vth queryVector queryTerms vectors projectName .narrative
        recencyBonus ts ((snapshot.fragments.narrative.map (·.story_beats)).getD [])
        (·.summary) (some (·.beat_type)) mut3
    else pure mut3
  if typeAllowed opts .quote then
    searchFragItems cosSim vth queryVector queryTerms vectors projectName .quote
      recencyBonus ts ((snapshot.fragments.narrative.map (·.memorable_quotes)).getD [])
      (·.quote) (some (·.speaker)) mut4
  else pure mut4

/-- Process the `current` (evolved) fragments of a project: same entry
kinds, with the maximal recency bonus of 20. -/
def searchCurrent (cosSim : Vec → Vec → ℚ) (vth : ℚ) (queryVector : Option Vec)
    (queryTerms : List String) (opts : SearchOptions)
    (vectors : List (String × Vec)) (projectName : String)
    (newestTime : Int) (memory : ProjectMemoryM)
    (st : SearchSt) : Except JsRegexError SearchSt := do
  let ts := some (jsOrInt memory.lastUpdated newestTime)
  let bonus : ℚ := 20
  let mut0 := st
  let mut1 ← if typeAllowed opts .decision then
      searchFragItems cosSim vth queryVector queryTerms vectors projectName .decision
        bonus ts ((memory.current.decisions.map (·.decisions)).getD [])
        (·.what) (some (·.why)) mut0
    else pure mut0
  let mut2 ← if typeAllowed opts .insight then
      searchFragItems cosSim vth queryVector queryTerms vectors projectName .insight
        bonus ts ((memory.current.insights.map (·.insights)).getD [])
        (·.learning) (some (·.context)) mut1
    else pure mut1
  let mut3 ← if typeAllowed opts .insight then
      searchFragItems cosSim vth queryVector queryTerms vectors projectName .gotcha
        bonus ts ((memory.current.insights.map (·.gotchas)).getD [])
        (·.issue) (some (·.solution)) mut2
    else pure mut2
  let mut4 ← if typeAllowed opts .narrative then
      searchFragItems cosSim vth queryVector queryTerms vectors projectName .narrative
        bonus ts ((memory.current.narrative.map (·.story_beats)).getD [])
        (·.summary) (some (·.beat_type)) mut3
    else pure mut3
  if typeAllowed opts .quote then
    searchFragItems cosSim vth queryVector queryTerms vectors projectName .quote
      bonus ts ((memory.current.narrative.map (·.memorable_quotes)).getD [])
      (·.quote) (some (·.speaker)) mut4
  else pure mut4

/-- Process a project's indexed source-code chunks: vector scores via the
hash→index map, keyword scores over path, chunk type and content; accepted
hits carry no recency bonus. -/
def searchSource (cosSim : Vec → Vec → ℚ) (vth : ℚ) (queryVector : Option Vec)
    (queryTerms : List String) (projectName : String)
    (manifest : SourceManifest) (svd : SourceVectorData)
    (st : SearchSt) : Except JsRegexError SearchSt :=
  manifest.files.foldlM
    (fun st file =>
      file.2.foldlM
        (fun (st : SearchSt) chunk => do
          if st.1.contains chunk.hash then pure st
          else do
            let entryVec := (lookupHashIndex svd.hashes chunk.hash).map
              (fun i => svd.vectors.getD i [])
            let (score, accepted) ← evalEntry cosSim vth queryVector entryVec queryTerms
              (file.1 ++ " " ++ chunk.ctype ++ " " ++ chunk.content.getD "")
            if accepted then
              pure (chunk.hash :: st.1, st.2 ++
                [{ project := projectName, rtype := .source,
                   content := "Chunk in " ++ file.1 ++ " (" ++ chunk.ctype ++ ", L" ++
                     toString chunk.startLine ++ "-" ++ toString chunk.endLine ++ ")",
                   context := some file.1, score := score,
                   timestamp := none, filePath := some file.1 }])
            else pure st)
        st)
    st

/-- The observed snapshot time range across all projects:
`oldestTime` starts at `Date.now()`, `newestTime` at 0. -/
def snapshotTimeRange (db : SearchDb) (now : Int) : Int × Int :=
  db.foldl
    (fun (acc : Int × Int) p =>
      match p.2.memory with
      | none => acc
      | some m =>
        m.sessionSnapshots.foldl
          (fun (acc : Int × Int) s =>
            (if s.timestamp < acc.1 then s.timestamp else acc.1,
             if acc.2 < s.timestamp then s.timestamp else acc.2))
          acc)
    (now, 0)

/-- Stable descending insertion by score (`(a, b) => b.score - a.score`). -/
def insertDescScore (r : SearchResult) : List SearchResult → List SearchResult
  | [] => [r]
  | x :: xs => if r.score < x.score then x :: insertDescScore r xs else r :: x :: xs

/-- Stable descending sort of results by score. -/
def sortDescScore (l : List SearchResult) : List SearchResult :=
  l.foldr insertDescScore []

/-- The body of `searchMemory` once the query vector is fixed: per
project (subject to the project filter), score the session snapshots, the
`current` fragments and the source chunks, then sort by score descending
and apply the (falsy-checked) limit. -/
def searchMemoryCore (cosSim : Vec → Vec → ℚ) (cfgThreshold : Option ℚ)
    (q : String) (opts : SearchOptions) (queryVector : Option Vec)
    (db : SearchDb) (now : Int) : Except JsRegexError (List SearchResult) := do
  let vth := effectiveVectorThreshold cfgThreshold
  let queryTerms := queryTermsOf q
  let (oldestTime, newestTime) := snapshotTimeRange db now
  let timeRange := jsOrInt (newestTime - oldestTime) 1
  let st ← db.foldlM
    (fun (st : SearchSt) p => do
      let projectName := p.1
      let skip : Bool := !opts.all && (match opts.projects with
        | some pf => !pf.contains projectName
        | none => false)
      if skip then pure st
      else do
        let memory := p.2.memory
        let hasSnapshots := (memory.map (fun m => m.sessionSnapshots.length)).getD 0 > 0
        let vectors := if hasSnapshots then p.2.vectors else []
        let st1 ← (match memory with
          | none => pure st
          | some m =>
            m.sessionSnapshots.foldlM
              (fun st snap =>
                searchSnapshot cosSim vth queryVector queryTerms opts vectors
                  projectName oldestTime timeRange snap st)
              st)
        let st2 ← (match memory with
          | none => pure st1
          | some m =>
            searchCurrent cosSim vth queryVector queryTerms opts vectors projectName
              newestTime m st1)
        if typeAllowed opts .source then
          match p.2.sourceManifest, p.2.sourceVectors with
          | some manifest, some svd =>
            searchSource cosSim vth queryVector queryTerms projectName manifest svd st2
          | _, _ => pure st2
        else pure st2)
    ([], [])
  let sorted := sortDescScore st.2
  match opts.limit with
  | some n => if n = 0 then pure sorted else pure (sorted.take n)
  | none => pure sorted

/-- Model of `searchMemory`: route the query (keyword-only for ≤ 2 words,
embedding-first for ≥ 3 words with an API key), then run the scoring over
the store. `cosSim` models `cosineSimilarity` (from `jina.ts`, outside the
core sources); `embed` models `getJinaEmbeddings([query])`. -/
def searchMemory (cosSim : Vec → Vec → ℚ) (cfgThreshold : Option ℚ)
    (q : String) (opts : SearchOptions) (embed : Option Vec)
    (db : SearchDb) (now : Int) : Except JsRegexError (List SearchResult) :=
  searchMemoryCore cosSim cfgThreshold q opts (routedQueryVector q opts embed) db now

-- ===========================================================================
-- Concrete instances used by the closed theorems below
-- ===========================================================================

/-- A concrete record: a user turn. -/
def exRec1 : RawLine :=
  { rtype := "user", sessionId := some "s1", cwd := some "/p",
    content := .str "hello a", timestamp := 100, uuid := "u1" }

/-- A concrete record: an assistant turn. -/
def exRec2 : RawLine :=
  { rtype := "assistant", sessionId := some "s1", cwd := some "/p",
    content := .str "hello b", timestamp := 200, uuid := "u2" }

/-- A concrete record parser: the byte `A` (65) parses to `exRec1`, the
byte `B` (66) to `exRec2`, anything else is malformed. -/
def exParse : List Nat → Option RawLine := fun bs =>
  if bs = [65] then some exRec1 else if bs = [66] then some exRec2 else none

/-- The message produced by `exRec1`. -/
def msgA : Message :=
  { role := .user, content := "hello a", timestamp := 100,
    source := { sessionId := some "s1", messageUuid := "u1", timestamp := 100 } }

/-- The message produced by `exRec2`. -/
def msgB : Message :=
  { role := .assistant, content := "hello b", timestamp := 200,
    source := { sessionId := some "s1", messageUuid := "u2", timestamp := 200 } }

/-- A concrete focus fragment. -/
def exFocusG : FocusFragment :=
  { current_goal := "g", active_tasks := [], blockers := [], next_steps := [] }

/-- An empty focus payload for collaborator stubs. -/
def exFocus0 : FocusFragment :=
  { current_goal := "", active_tasks := [], blockers := [], next_steps := [] }

/-- A concrete snapshot at time 1. -/
def exSnapA : SessionSnapshot :=
  { sessionId := "a", timestamp := 1,
    fragments := { emptyFragments with focus := some exFocusG } }

/-- A concrete snapshot at time 2. -/
def exSnapB : SessionSnapshot :=
  { sessionId := "b", timestamp := 2, fragments := emptyFragments }

/-- A concrete horizontal collaborator stub. -/
def exHCollab : HorizontalCollab :=
  { decisions := fun _ _ => ({ decisions := [] }, 1),
    insights := fun _ _ => ({ insights := [], gotchas := [] }, 2),
    focus := fun _ _ => (exFocus0, 3),
    narrative := fun _ _ => ({ story_beats := [], memorable_quotes := [] }, 4) }

/-- A concrete vocabulary fragment. -/
def exVocX : VocabularyFragment :=
  { terms := [("x", 1)], concepts := [], technologies := [], files := [] }

/-- A concrete baseline whose vocabulary is present. -/
def exBaseV : AllFragments := { emptyFragments with vocabulary := some exVocX }

/-- A config with no baseline. -/
def exCfgNone : HorizontalEvolutionConfig := { windowSize := none, currentFragments := none }

/-- A config with the `exBaseV` baseline. -/
def exCfgBase : HorizontalEvolutionConfig :=
  { windowSize := none, currentFragments := some exBaseV }

/-- A concrete message for vertical evolution. -/
def exMsg1 : Message :=
  { role := .user, content := "hello there world",
    timestamp := 5, source := { sessionId := some "s", messageUuid := "u", timestamp := 5 } }

/-- A concrete evolution context. -/
def exCtx : EvolutionContext :=
  { messages := [exMsg1], allFragments := emptyFragments, project := none, sessionId := none }

/-- A concrete decision payload. -/
def exDecWY : Decision := { what := "w", why := "y" }

/-- A vertical collaborator stub whose narrative call fails. -/
def exVCollab : VerticalCollab :=
  { decisions := .ok ({ decisions := [exDecWY] }, 7),
    insights := .ok ({ insights := [], gotchas := [] }, 1),
    focus := .ok (exFocus0, 1),
    narrative := .error "boom" }

/-- A concrete story beat. -/
def exBeatOld : StoryBeat := { summary := "old", beat_type := "setup" }

/-- Concrete prior fragments with a narrative present. -/
def exCurFr : AllFragments :=
  { emptyFragments with
    narrative := some ({ story_beats := [exBeatOld], memorable_quotes := [] }) }

/-- A constant-zero similarity stub. -/
def constSim0 : Vec → Vec → ℚ := fun _ _ => 0

end Prose

-- ===========================================================================
-- Theorems
-- ===========================================================================

namespace Prose

theorem splitB_ne_nil (buf : List Nat) : splitB buf ≠ [] := by
  cases buf with
  | nil => simp [splitB]
  | cons b rest =>
    simp only [splitB]
    by_cases h : b = 10
    · simp [h]
    · simp only [if_neg h]
      cases hs : splitB rest with
      | nil => simp
      | cons x xs => simp

theorem splitB_line (l : List Nat) :
    ∀ rest : List Nat, (∀ b ∈ l, b ≠ 10) →
      splitB (l ++ 10 :: rest) = l :: splitB rest := by
  induction l with
  | nil => intro rest _; simp [splitB]
  | cons a l ih =>
    intro rest h
    have ha : a ≠ 10 := h a (by simp)
    have h' : ∀ b ∈ l, b ≠ 10 := fun b hb => h b (by simp [hb])
    simp only [List.cons_append, splitB, if_neg ha, List.append_eq, ih rest h']

theorem splitB_no10 (l : List Nat) (h : ∀ b ∈ l, b ≠ 10) : splitB l = [l] := by
  induction l with
  | nil => simp [splitB]
  | cons a l ih =>
    have ha : a ≠ 10 := h a (by simp)
    have h' : ∀ b ∈ l, b ≠ 10 := fun b hb => h b (by simp [hb])
    simp only [splitB, if_neg ha, ih h']

theorem segs_joinT_append (lines : List (List Nat)) (X : List Nat)
    (h : ∀ l ∈ lines, ∀ b ∈ l, b ≠ 10) :
    segsWithFlags (joinT lines ++ X)
      = lines.map (fun l => (l, true)) ++ segsWithFlags X := by
  induction lines with
  | nil => simp [joinT]
  | cons l ls ih =>
    have h1 : ∀ b ∈ l, b ≠ 10 := h l (by simp)
    have h2 : ∀ l' ∈ ls, ∀ b ∈ l', b ≠ 10 := fun l' hl' => h l' (by simp [hl'])
    have hrw : joinT (l :: ls) ++ X = l ++ 10 :: (joinT ls ++ X) := by
      simp [joinT]
    rw [hrw]
    unfold segsWithFlags
    rw [splitB_line l (joinT ls ++ X) h1]
    obtain ⟨x, xs, hx⟩ := List.exists_cons_of_ne_nil (splitB_ne_nil (joinT ls ++ X))
    rw [hx]
    show (l, true) :: flagSegs (x :: xs) = _
    rw [← hx]
    have := ih h2
    unfold segsWithFlags at this
    rw [this]
    simp

theorem segs_joinT (lines : List (List Nat))
    (h : ∀ l ∈ lines, ∀ b ∈ l, b ≠ 10) :
    segsWithFlags (joinT lines) = lines.map (fun l => (l, true)) := by
  have := segs_joinT_append lines [] h
  simpa [segsWithFlags, splitB, flagSegs] using this

theorem runSegs_break (parse : List Nat → Option RawLine) (s : List Nat)
    (flag : Bool) (rest : List (List Nat × Bool)) (base : Nat) (st : PState)
    (h1 : trimBytes s ≠ []) (h2 : parse (trimBytes s) = none) :
    runSegs parse ((s, flag) :: rest) base st = st := by
  simp [runSegs, h1, h2]

theorem runSegs_good_append (parse : List Nat → Option RawLine)
    (lines : List (List Nat)) (tail : List (List Nat × Bool)) :
    ∀ (base : Nat) (st : PState), GoodLines parse lines →
    runSegs parse (lines.map (fun l => (l, true)) ++ tail) base st
      = runSegs parse tail (base + (joinT lines).length)
          (runSegs parse (lines.map (fun l => (l, true))) base st) := by
  induction lines with
  | nil => intro base st _; simp [joinT, runSegs]
  | cons l ls ih =>
    intro base st h
    have hls : GoodLines parse ls := fun l' hl' => h l' (by simp [hl'])
    have hlen : base + (joinT (l :: ls)).length
        = (base + l.length + 1) + (joinT ls).length := by
      simp [joinT]; omega
    rw [hlen]
    by_cases he : trimBytes l = []
    · simp [runSegs, he, List.append_eq]
      exact ih (base + l.length + 1) _ hls
    · rcases (h l (by simp)).2 with he' | hp
      · exact absurd he' he
      · obtain ⟨r, hr⟩ := Option.isSome_iff_exists.mp hp
        simp [runSegs, he, hr, List.append_eq]
        exact ih (base + l.length + 1) _ hls

theorem runSegs_good_lastOk (parse : List Nat → Option RawLine)
    (lines : List (List Nat)) :
    ∀ (base : Nat) (st : PState), GoodLines parse lines → st.lastOk = base →
    (runSegs parse (lines.map (fun l => (l, true))) base st).lastOk
      = base + (joinT lines).length := by
  induction lines with
  | nil => intro base st _ hst; simpa [joinT, runSegs] using hst
  | cons l ls ih =>
    intro base st h hst
    have hls : GoodLines parse ls := fun l' hl' => h l' (by simp [hl'])
    have hlen : base + (joinT (l :: ls)).length
        = (base + l.length + 1) + (joinT ls).length := by
      simp [joinT]; omega
    rw [hlen]
    by_cases he : trimBytes l = []
    · simp [runSegs, he]
      exact ih (base + l.length + 1) _ hls rfl
    · rcases (h l (by simp)).2 with he' | hp
      · exact absurd he' he
      · obtain ⟨r, hr⟩ := Option.isSome_iff_exists.mp hp
        simp [runSegs, he, hr]
        exact ih (base + l.length + 1) _ hls rfl

/-- The parse loop through a well-formed prefix followed by an unparseable
line stops exactly at that line, leaving the state of the prefix alone. -/
theorem runSegs_stops (parse : List Nat → Option RawLine)
    (lines : List (List Nat)) (bad suffix : List Nat)
    (hg : GoodLines parse lines) (hb10 : ∀ b ∈ bad, b ≠ 10)
    (hbt : trimBytes bad ≠ []) (hbp : parse (trimBytes bad) = none)
    (hs : suffix = [] ∨ ∃ r, suffix = 10 :: r) :
    runSegs parse (segsWithFlags (joinT lines ++ (bad ++ suffix))) 0 ⟨[], "", "", 0⟩
      = runSegs parse (segsWithFlags (joinT lines)) 0 ⟨[], "", "", 0⟩ := by
  have h10 : ∀ l ∈ lines, ∀ b ∈ l, b ≠ 10 := fun l hl => (hg l hl).1
  have hbne : bad ≠ [] := by
    intro e
    apply hbt
    rw [e]
    rfl
  obtain ⟨flag, segs', hseg⟩ :
      ∃ flag segs', segsWithFlags (bad ++ suffix) = (bad, flag) :: segs' := by
    rcases hs with rfl | ⟨r, rfl⟩
    · refine ⟨false, [], ?_⟩
      rw [List.append_nil]
      unfold segsWithFlags
      rw [splitB_no10 bad hb10]
      simp [flagSegs, hbne]
    · refine ⟨true, flagSegs (splitB r), ?_⟩
      unfold segsWithFlags
      rw [splitB_line bad r hb10]
      obtain ⟨x, xs, hx⟩ := List.exists_cons_of_ne_nil (splitB_ne_nil r)
      rw [hx]
      rfl
  rw [segs_joinT_append lines (bad ++ suffix) h10, hseg, segs_joinT lines h10,
    runSegs_good_append parse lines ((bad, flag) :: segs') 0 _ hg,
    runSegs_break parse bad flag segs' _ _ hbt hbp]

/-- For every record parser, a log made of well-formed newline-terminated
lines followed by a nonempty trailing line that does not parse yields
exactly the conversation of the well-formed prefix, with `processedBytes`
pointing at the start of the failed trailing line — strictly before the
end of the file. -/
theorem parseFull_trailing_deferral (parse : List Nat → Option RawLine)
    (d : String) (now : Int) (lines : List (List Nat)) (bad : List Nat)
    (hg : GoodLines parse lines) (hb10 : ∀ b ∈ bad, b ≠ 10)
    (hbt : trimBytes bad ≠ []) (hbp : parse (trimBytes bad) = none) :
    (parseSessionFile parse d now (joinT lines ++ bad)).messages
        = (parseSessionFile parse d now (joinT lines)).messages
      ∧ (parseSessionFile parse d now (joinT lines ++ bad)).processedBytes
        = (joinT lines).length
      ∧ (joinT lines).length < (joinT lines ++ bad).length := by
  have hbne : bad ≠ [] := by
    intro e
    apply hbt
    rw [e]
    rfl
  have hst : runSegs parse (segsWithFlags (joinT lines ++ bad)) 0 ⟨[], "", "", 0⟩
      = runSegs parse (segsWithFlags (joinT lines)) 0 ⟨[], "", "", 0⟩ := by
    have := runSegs_stops parse lines bad [] hg hb10 hbt hbp (Or.inl rfl)
    simpa using this
  have hlast : (runSegs parse (segsWithFlags (joinT lines)) 0 ⟨[], "", "", 0⟩).lastOk
      = (joinT lines).length := by
    rw [segs_joinT lines (fun l hl => (hg l hl).1)]
    simpa using runSegs_good_lastOk parse lines 0 ⟨[], "", "", 0⟩ hg rfl
  refine ⟨?_, ?_, ?_⟩
  · unfold parseSessionFile
    rw [hst]
  · unfold parseSessionFile
    rw [hst]
    exact hlast
  · have : 0 < bad.length := List.length_pos.mpr hbne
    simp [List.length_append]
    omega

/-- Amended behaviour of the first unparseable line: whether interior
(followed by a newline and more bytes) or trailing, the parse stops there;
the result is exactly that of the well-formed prefix, and `processedBytes`
points at the start of the offending line, so no event after it is
returned in this pass. -/
theorem parseFull_stops_at_first_unparseable (parse : List Nat → Option RawLine)
    (d : String) (now : Int) (lines : List (List Nat)) (bad suffix : List Nat)
    (hg : GoodLines parse lines) (hb10 : ∀ b ∈ bad, b ≠ 10)
    (hbt : trimBytes bad ≠ []) (hbp : parse (trimBytes bad) = none)
    (hs : suffix = [] ∨ ∃ r, suffix = 10 :: r) :
    (parseSessionFile parse d now (joinT lines ++ bad ++ suffix)).messages
        = (parseSessionFile parse d now (joinT lines)).messages
      ∧ (parseSessionFile parse d now (joinT lines ++ bad ++ suffix)).processedBytes
        = (joinT lines).length := by
  have hst : runSegs parse (segsWithFlags (joinT lines ++ bad ++ suffix)) 0 ⟨[], "", "", 0⟩
      = runSegs parse (segsWithFlags (joinT lines)) 0 ⟨[], "", "", 0⟩ := by
    rw [List.append_assoc]
    exact runSegs_stops parse lines bad suffix hg hb10 hbt hbp hs
  have hlast : (runSegs parse (segsWithFlags (joinT lines)) 0 ⟨[], "", "", 0⟩).lastOk
      = (joinT lines).length := by
    rw [segs_joinT lines (fun l hl => (hg l hl).1)]
    simpa using runSegs_good_lastOk parse lines 0 ⟨[], "", "", 0⟩ hg rfl
  constructor
  · unfold parseSessionFile
    rw [hst]
  · unfold parseSessionFile
    rw [hst]
    exact hlast

/-- Counterexample to the claim that unparseable interior lines are
skipped and parsing continues: with a malformed line between two
well-formed lines, only the event before the malformed line is returned —
the well-formed line after it yields an event when parsed alone, but that
event is absent from the result. -/
theorem parseFull_interior_bad_counterexample :
    (parseSessionFile exParse "d" 0 [65, 10, 123, 10, 66, 10]).messages = [msgA]
      ∧ (parseSessionFile exParse "d" 0 [66, 10]).messages = [msgB]
      ∧ msgB ∉ (parseSessionFile exParse "d" 0 [65, 10, 123, 10, 66, 10]).messages := by
  exact ⟨by decide, by decide, by decide⟩

theorem parseFull_stops_at_first_unparseable_witness :
    (parseSessionFile exParse "d" 0 (joinT [[65]] ++ [123] ++ (10 :: [66, 10]))).messages
        = [msgA]
      ∧ (parseSessionFile exParse "d" 0 (joinT [[65]] ++ [123] ++ (10 :: [66, 10]))).processedBytes
        = 2 := by
  have h := parseFull_stops_at_first_unparseable exParse "d" 0 [[65]] [123] (10 :: [66, 10])
    (by decide) (by decide) (by decide) (by decide) (Or.inr ⟨[66, 10], rfl⟩)
  exact ⟨by rw [h.1]; decide, h.2.trans (by decide)⟩

theorem parseFull_trailing_deferral_witness :
    (parseSessionFile exParse "d" 0 (joinT [[65], [66]] ++ [123])).messages.length = 2
      ∧ (parseSessionFile exParse "d" 0 (joinT [[65], [66]] ++ [123])).processedBytes = 4
      ∧ (4 : Nat) < (joinT [[65], [66]] ++ [123]).length := by
  have h := parseFull_trailing_deferral exParse "d" 0 [[65], [66]] [123]
    (by decide) (by decide) (by decide) (by decide)
  refine ⟨?_, h.2.1.trans (by decide), ?_⟩
  · rw [h.1]; decide
  · have := h.2.2
    have h4 : (joinT [[65], [66]]).length = 4 := by decide
    omega

theorem runSegs_lastOk_ge (parse : List Nat → Option RawLine)
    (segs : List (List Nat × Bool)) :
    ∀ (base : Nat) (st : PState) (b0 : Nat), b0 ≤ base → b0 ≤ st.lastOk →
      b0 ≤ (runSegs parse segs base st).lastOk := by
  induction segs with
  | nil => intro base st b0 _ hst; simpa [runSegs] using hst
  | cons seg rest ih =>
    intro base st b0 hb hst
    obtain ⟨s, term⟩ := seg
    by_cases he : trimBytes s = []
    · simp only [runSegs, he, if_pos]
      apply ih (base + s.length + 1) _ b0 (by omega)
      cases term <;> simp <;> omega
    · cases hp : parse (trimBytes s) with
      | none => simpa [runSegs, he, hp] using hst
      | some r =>
        simp only [runSegs, he, if_neg, hp]
        apply ih (base + s.length + 1) _ b0 (by omega)
        cases term <;> simp <;> omega

/-- The function `parseSessionFileFromOffset` never returns a `processedBytes` below
the starting offset, and an offset at or past the file size returns no
events and the offset unchanged. -/
theorem parseFromOffset_monotone (parse : List Nat → Option RawLine)
    (file : List Nat) (off : Nat) (sid proj : Option String) :
    off ≤ (parseSessionFileFromOffset parse file off sid proj).2
      ∧ (file.length ≤ off →
          parseSessionFileFromOffset parse file off sid proj = ([], off)) := by
  unfold parseSessionFileFromOffset
  by_cases h : file.length ≤ off
  · simp [h]
  · simp only [if_neg h]
    constructor
    · exact runSegs_lastOk_ge parse _ off _ off le_rfl le_rfl
    · intro hc
      exact absurd hc h

theorem parseFromOffset_monotone_witness :
    5 ≤ (parseSessionFileFromOffset exParse [65, 10] 5 none none).2
      ∧ parseSessionFileFromOffset exParse [65, 10] 5 none none = ([], 5) := by
  have h := parseFromOffset_monotone exParse [65, 10] 5 none none
  exact ⟨h.1, h.2 (by decide)⟩

/-- Counterexample to carrying vocabulary over unchanged: in the general
(two snapshots, baseline present, hence non-bootstrap) case, the returned
vocabulary is `null` even though the baseline's vocabulary is present. -/
theorem horizontal_vocabulary_dropped_counterexample :
    (evolveHorizontal exHCollab [exSnapA, exSnapB] exCfgBase).current.vocabulary
        ≠ exBaseV.vocabulary
      ∧ exCfgBase.currentFragments = some exBaseV
      ∧ (evolveHorizontal exHCollab [exSnapA, exSnapB] exCfgBase).sessionsIncluded = 2
      ∧ (evolveHorizontal exHCollab [exSnapA, exSnapB] exCfgBase).current.vocabulary
        = none := by
  exact ⟨by decide, by decide, by decide, by decide⟩

/-- Amended behaviour: in the general (non-bootstrap) case with a baseline
present, horizontal evolution sets the vocabulary of the new baseline to
`null` — the baseline's vocabulary is dropped, not carried over. -/
theorem horizontal_vocabulary_nulled (collab : HorizontalCollab)
    (snapshots : List SessionSnapshot) (cfg : HorizontalEvolutionConfig)
    (base : AllFragments) (hb : cfg.currentFragments = some base)
    (hw : windowOf snapshots cfg ≠ []) :
    (evolveHorizontal collab snapshots cfg).current.vocabulary = none := by
  unfold evolveHorizontal
  cases hwin : windowOf snapshots cfg with
  | nil => exact absurd hwin hw
  | cons w0 wrest => simp [hb]

theorem horizontal_vocabulary_nulled_witness :
    (evolveHorizontal exHCollab [exSnapA, exSnapB] exCfgBase).current.vocabulary
      = none := by
  exact horizontal_vocabulary_nulled exHCollab [exSnapA, exSnapB] exCfgBase exBaseV
    rfl (by decide)

/-- When the selected window holds exactly one snapshot and no baseline
exists, horizontal evolution adopts that snapshot's fragments unchanged,
with zero tokens and zero collaborator invocations (for every
collaborator). -/
theorem horizontal_bootstrap_adoption (collab : HorizontalCollab)
    (snapshots : List SessionSnapshot) (cfg : HorizontalEvolutionConfig)
    (s : SessionSnapshot) (hw : windowOf snapshots cfg = [s])
    (hb : cfg.currentFragments = none) :
    (evolveHorizontal collab snapshots cfg).current = s.fragments
      ∧ (evolveHorizontal collab snapshots cfg).tokensUsed = 0
      ∧ (evolveHorizontal collab snapshots cfg).sessionsIncluded = 1
      ∧ (evolveHorizontal collab snapshots cfg).collabCalls = 0 := by
  unfold evolveHorizontal
  rw [hw]
  simp [hb]

theorem horizontal_bootstrap_adoption_witness :
    (evolveHorizontal exHCollab [exSnapA] exCfgNone).current = exSnapA.fragments
      ∧ (evolveHorizontal exHCollab [exSnapA] exCfgNone).tokensUsed = 0
      ∧ (evolveHorizontal exHCollab [exSnapA] exCfgNone).collabCalls = 0 := by
  have h := horizontal_bootstrap_adoption exHCollab [exSnapA] exCfgNone exSnapA
    (by decide) rfl
  exact ⟨h.1, h.2.1, h.2.2.2⟩

/-- Bulkhead isolation of a vertical pass: a failed collaborator call for
one fragment type leaves that fragment's prior value in place and records
the failure in `errors`, while each fragment type whose call succeeds
receives its new value — for every combination of outcomes. -/
theorem vertical_bulkhead_isolation (cur : AllFragments)
    (ctx : EvolutionContext) (vc : VerticalCollab) :
    (∀ e, vc.decisions = .error e →
        (evolveAllFragments cur ctx vc).fragments.decisions = cur.decisions
          ∧ ("decisions: " ++ e) ∈ (evolveAllFragments cur ctx vc).errors)
      ∧ (∀ v t, vc.decisions = .ok (v, t) →
          (evolveAllFragments cur ctx vc).fragments.decisions = some v)
      ∧ (∀ e, vc.insights = .error e →
          (evolveAllFragments cur ctx vc).fragments.insights = cur.insights
            ∧ ("insights: " ++ e) ∈ (evolveAllFragments cur ctx vc).errors)
      ∧ (∀ v t, vc.insights = .ok (v, t) →
          (evolveAllFragments cur ctx vc).fragments.insights = some v)
      ∧ (∀ e, vc.focus = .error e →
          (evolveAllFragments cur ctx vc).fragments.focus = cur.focus
            ∧ ("focus: " ++ e) ∈ (evolveAllFragments cur ctx vc).errors)
      ∧ (∀ v t, vc.focus = .ok (v, t) →
          (evolveAllFragments cur ctx vc).fragments.focus = some v)
      ∧ (∀ e, vc.narrative = .error e →
          (evolveAllFragments cur ctx vc).fragments.narrative = cur.narrative
            ∧ ("narrative: " ++ e) ∈ (evolveAllFragments cur ctx vc).errors)
      ∧ (∀ v t, vc.narrative = .ok (v, t) →
          (evolveAllFragments cur ctx vc).fragments.narrative = some v) := by
  refine ⟨fun e he => ?_, fun v t hv => ?_, fun e he => ?_, fun v t hv => ?_,
    fun e he => ?_, fun v t hv => ?_, fun e he => ?_, fun v t hv => ?_⟩ <;>
    simp [evolveAllFragments, evolveDecisions, evolveInsights, evolveFocus,
      evolveNarrative, evolveOne, Option.or, *]

theorem vertical_bulkhead_isolation_witness :
    (evolveAllFragments exCurFr exCtx exVCollab).fragments.narrative
        = exCurFr.narrative
      ∧ "narrative: boom" ∈ (evolveAllFragments exCurFr exCtx exVCollab).errors
      ∧ (evolveAllFragments exCurFr exCtx exVCollab).fragments.decisions
        = some ({ decisions := [exDecWY] }) := by
  have h := vertical_bulkhead_isolation exCurFr exCtx exVCollab
  have hn := h.2.2.2.2.2.2.1 "boom" rfl
  have hd := h.2.1 ({ decisions := [exDecWY] }) 7 rfl
  have hs : ("narrative: " ++ "boom" : String) = "narrative: boom" := by decide
  exact ⟨hn.1, hs ▸ hn.2, hd⟩

/-- Counterexample to the totality of `scoreMatch`: the term `"c++"`
occurs as a substring of the text, so the word-boundary bonus regex
`` `\bc++\b` `` is built — and fails to compile (a quantifier may not
follow a quantifier), raising a `SyntaxError` instead of returning a
score. -/
theorem scoreMatch_regex_error_counterexample :
    jsIncludes (jsToLower "i know c++") "c++" = true
      ∧ (compileRegex (wbPattern "c++")).isNone = true
      ∧ scoreMatch ["c++"] "i know c++" = .error .invalidRegex := by
  exact ⟨by decide, by decide, by decide⟩

theorem scoreMatchGo_total (tl : String) :
    ∀ terms : List String,
      (∀ t ∈ terms, jsIncludes tl t = true → (compileRegex (wbPattern t)).isSome) →
      ∃ n, scoreMatchGo tl terms = .ok n := by
  intro terms
  induction terms with
  | nil => exact fun _ => ⟨0, rfl⟩
  | cons t rest ih =>
    intro h
    have hrest := ih (fun t' ht' => h t' (by simp [ht']))
    obtain ⟨n, hn⟩ := hrest
    by_cases hi : jsIncludes tl t
    · obtain ⟨r, hr⟩ := Option.isSome_iff_exists.mp (h t (by simp) hi)
      exact ⟨10 + (if rtest r tl.toList then 5 else 0) + n, by
        simp [scoreMatchGo, hi, hr, hn]⟩
    · exact ⟨n, by simp [scoreMatchGo, hi, hn]⟩

/-- Amended behaviour: `scoreMatch` returns a numeric score whenever every
query term that occurs as a substring of the lowercased text compiles
inside the word-boundary pattern; a term with regex metacharacters (such
as `"c++"`) that does occur fails to compile there and raises instead. -/
theorem scoreMatch_total_when_terms_compile (terms : List String) (text : String)
    (h : ∀ t ∈ terms, jsIncludes (jsToLower text) t = true →
      (compileRegex (wbPattern t)).isSome) :
    ∃ n, scoreMatch terms text = .ok n :=
  scoreMatchGo_total (jsToLower text) terms h

theorem scoreMatch_total_when_terms_compile_witness :
    (scoreMatch ["abc"] "x abc").isOk = true := by
  obtain ⟨n, hn⟩ := scoreMatch_total_when_terms_compile ["abc"] "x abc" (by decide)
  rw [hn]
  rfl

/-- The score of one term in `scoreMatchGo` is 0, 10 or 15, so the total
is at most `15 × termCount`, with equality exactly when every term
fully matches. -/
theorem scoreMatchGo_ok_bounds (tl : String) :
    ∀ (terms : List String) (k : Nat), scoreMatchGo tl terms = .ok k →
      k ≤ 15 * terms.length
        ∧ (15 * terms.length ≤ k ↔ ∀ t ∈ terms, termFullLower t tl = true) := by
  intro terms
  induction terms with
  | nil =>
    intro k h
    simp only [scoreMatchGo] at h
    obtain rfl : (0 : Nat) = k := by simpa using h
    simp
  | cons t rest ih =>
    intro k h
    simp only [scoreMatchGo] at h
    by_cases hi : jsIncludes tl t
    · rw [if_pos hi] at h
      cases hc : compileRegex (wbPattern t) with
      | none => rw [hc] at h; exact absurd h (by simp)
      | some r =>
        rw [hc] at h
        cases hgo : scoreMatchGo tl rest with
        | error e => rw [hgo] at h; exact absurd h (by simp)
        | ok k' =>
          rw [hgo] at h
          have hk : 10 + (if rtest r tl.toList then 5 else 0) + k' = k := by
            simpa using h
          obtain ⟨hle, hiff⟩ := ih k' hgo
          by_cases hb : rtest r tl.toList
          · rw [if_pos hb] at hk
            constructor
            · simp only [List.length_cons]; omega
            · simp only [List.forall_mem_cons, termFullLower, hi, hc,
                Bool.true_and, List.length_cons]
              constructor
              · intro hbig
                exact ⟨hb, hiff.mp (by omega)⟩
              · intro ⟨_, hrest⟩
                have := hiff.mpr hrest
                omega
          · rw [if_neg hb] at hk
            constructor
            · simp only [List.length_cons]; omega
            · simp only [List.forall_mem_cons, termFullLower, hi, hc,
                Bool.true_and, List.length_cons]
              constructor
              · intro hbig; omega
              · intro ⟨hfalse, _⟩; exact absurd hfalse hb
    · rw [if_neg hi] at h
      obtain ⟨hle, hiff⟩ := ih k h
      constructor
      · simp only [List.length_cons]; omega
      · simp only [List.forall_mem_cons, termFullLower, hi, Bool.false_and,
          List.length_cons]
        constructor
        · intro hbig; omega
        · intro ⟨hfalse, _⟩; exact absurd hfalse (by simp)

/-- Acceptance thresholds of the retrieval scorer: a vector-scored entry
is accepted exactly when its cosine similarity is at least the configured
threshold (default `DEFAULT_VECTOR_THRESHOLD = 0.6` on the 0–1 scale),
and a keyword-scored entry is accepted exactly when its `scoreMatch` total
reaches `queryTerms.length × 15` raw points (×10 scaling against the
`×150` minimum), i.e. exactly when every query term fully matches the
entry's text. -/
theorem search_acceptance_thresholds :
    (∀ (cosSim : Vec → Vec → ℚ) (thr : Option ℚ) (qv vv : Vec) (terms : List String)
        (text : String) (sc : ℚ) (acc : Bool),
      evalEntry cosSim (effectiveVectorThreshold thr) (some qv) (some vv) terms text
          = .ok (sc, acc) →
        sc = cosSim qv vv * 100
          ∧ (acc = true ↔ thr.getD DEFAULT_VECTOR_THRESHOLD ≤ cosSim qv vv))
      ∧ (∀ (cosSim : Vec → Vec → ℚ) (vth : ℚ) (ev : Option Vec) (terms : List String)
          (text : String) (k : Nat) (sc : ℚ) (acc : Bool),
        scoreMatch terms text = .ok k →
        evalEntry cosSim vth none ev terms text = .ok (sc, acc) →
          sc = (k : ℚ) * 10
            ∧ (acc = true ↔ ∀ t ∈ terms, termFullyMatches t text = true)) := by
  constructor
  · intro cosSim thr qv vv terms text sc acc h
    simp only [evalEntry] at h
    obtain ⟨hsc, hacc⟩ : cosSim qv vv * 100 = sc
        ∧ decide (cosSim qv vv * 100 ≥ effectiveVectorThreshold thr) = acc := by
      simpa using h
    refine ⟨hsc.symm, ?_⟩
    rw [← hacc]
    simp only [decide_eq_true_eq, ge_iff_le, effectiveVectorThreshold]
    constructor
    · intro hle
      have h100 : (0 : ℚ) < 100 := by norm_num
      exact le_of_mul_le_mul_right hle h100
    · intro hle
      have h100 : (0 : ℚ) ≤ 100 := by norm_num
      exact mul_le_mul_of_nonneg_right hle h100
  · intro cosSim vth ev terms text k sc acc hsm h
    simp only [evalEntry, hsm] at h
    obtain ⟨hsc, hacc⟩ : (k : ℚ) * 10 = sc
        ∧ decide ((k : ℚ) * 10 ≥ (terms.length : ℚ) * 150) = acc := by
      simpa using h
    refine ⟨hsc.symm, ?_⟩
    rw [← hacc]
    simp only [decide_eq_true_eq, ge_iff_le]
    have hcast : ((terms.length : ℚ) * 150 ≤ (k : ℚ) * 10)
        ↔ terms.length * 150 ≤ k * 10 := by
      constructor
      · intro hq; exact_mod_cast hq
      · intro hn; exact_mod_cast hn
    rw [hcast]
    obtain ⟨hle, hiff⟩ := scoreMatchGo_ok_bounds (jsToLower text) terms k hsm
    unfold termFullyMatches
    constructor
    · intro hbig
      exact hiff.mp (by omega)
    · intro hall
      have := hiff.mpr hall
      omega

theorem search_acceptance_thresholds_witness :
    (evalEntry constSim0 (effectiveVectorThreshold (some 0)) (some [])
        (some []) [] "").toOption.map Prod.snd = some true
      ∧ (evalEntry constSim0 (effectiveVectorThreshold none) none none
          ["abc"] "abc").toOption.map Prod.snd = some true := by
  have h := search_acceptance_thresholds
  constructor
  · have he : evalEntry constSim0 (effectiveVectorThreshold (some 0)) (some [])
        (some []) [] ""
        = .ok (constSim0 [] [] * 100,
            decide (constSim0 [] [] * 100 ≥ effectiveVectorThreshold (some 0))) := rfl
    have happ := (h.1 constSim0 (some 0) [] [] [] "" _ _ he).2
    have hacc := happ.mpr (le_refl 0)
    rw [he, hacc]
    rfl
  · have hsm : scoreMatch ["abc"] "abc" = .ok 15 := by decide
    have he : evalEntry constSim0 (effectiveVectorThreshold none) none none
        ["abc"] "abc"
        = .ok (((15 : Nat) : ℚ) * 10,
            decide (((15 : Nat) : ℚ) * 10 ≥ ((["abc"].length : Nat) : ℚ) * 150)) := by
      simp only [evalEntry, hsm]
    have happ := (h.2 constSim0 (effectiveVectorThreshold none) none ["abc"] "abc"
      15 _ _ hsm he).2
    have hacc := happ.mpr (by decide)
    rw [he, hacc]
    rfl

/-- Query routing of the retrieval scorer: a query of at most two words
never consults the embedding service (the result is the same for every
embedding oracle); a query of three or more words with an API key sends
the query to the embedding service; an entry with both a query vector and
an entry vector is scored by cosine similarity × 100 (never keyword); an
entry without its own vector — or any entry when the query has no vector —
is scored by `scoreMatch` × 10. -/
theorem search_query_routing :
    (∀ (cosSim : Vec → Vec → ℚ) (thr : Option ℚ) (q : String) (opts : SearchOptions)
        (db : SearchDb) (now : Int) (e₁ e₂ : Option Vec),
      wordCountOf q ≤ 2 →
        searchMemory cosSim thr q opts e₁ db now
          = searchMemory cosSim thr q opts e₂ db now)
      ∧ (∀ (q : String) (opts : SearchOptions) (e : Option Vec),
        3 ≤ wordCountOf q → opts.hasJinaKey = true → routedQueryVector q opts e = e)
      ∧ (∀ (q : String) (opts : SearchOptions) (e : Option Vec),
        wordCountOf q ≤ 2 → routedQueryVector q opts e = none)
      ∧ (∀ (cosSim : Vec → Vec → ℚ) (vth : ℚ) (qv vv : Vec) (terms : List String)
          (text : String),
        evalEntry cosSim vth (some qv) (some vv) terms text
          = .ok (cosSim qv vv * 100, decide (cosSim qv vv * 100 ≥ vth)))
      ∧ (∀ (cosSim : Vec → Vec → ℚ) (vth : ℚ) (qv : Vec) (terms : List String)
          (text : String),
        evalEntry cosSim vth (some qv) none terms text
          = evalEntry cosSim vth none none terms text)
      ∧ (∀ (cosSim : Vec → Vec → ℚ) (vth : ℚ) (ev : Option Vec) (terms : List String)
          (text : String) (k : Nat),
        scoreMatch terms text = .ok k →
          evalEntry cosSim vth none ev terms text
            = .ok ((k : ℚ) * 10, decide ((k : ℚ) * 10 ≥ (terms.length : ℚ) * 150))) := by
  refine ⟨?_, ?_, ?_, ?_, ?_, ?_⟩
  · intro cosSim thr q opts db now e₁ e₂ h
    unfold searchMemory routedQueryVector
    rw [if_pos h, if_pos h]
  · intro q opts e h hk
    unfold routedQueryVector
    rw [if_neg (by omega), if_pos hk]
  · intro q opts e h
    unfold routedQueryVector
    rw [if_pos h]
  · intro cosSim vth qv vv terms text
    rfl
  · intro cosSim vth qv terms text
    rfl
  · intro cosSim vth ev terms text k hsm
    cases ev with
    | none => simp [evalEntry, hsm]
    | some v => simp [evalEntry, hsm]

theorem search_query_routing_witness :
    searchMemory constSim0 none "alpha" SearchOptions.default (some [1]) [] 0
        = searchMemory constSim0 none "alpha" SearchOptions.default none [] 0
      ∧ routedQueryVector "three word query"
          ({ SearchOptions.default with hasJinaKey := true }) (some [2]) = some [2]
      ∧ routedQueryVector "alpha"
          ({ SearchOptions.default with hasJinaKey := true }) (some [2]) = none := by
  have h := search_query_routing
  exact ⟨h.1 constSim0 none "alpha" SearchOptions.default [] 0 (some [1]) none (by decide),
    h.2.1 "three word query" _ (some [2]) (by decide) rfl,
    h.2.2.1 "alpha" _ (some [2]) (by decide)⟩

theorem jsOrStr_empty (s : String) : jsOrStr s "" = s := by
  unfold jsOrStr
  by_cases h : s = ""
  · rw [if_pos h, h]
  · rw [if_neg h]

/-- Splitting at a separator absent from both left parts is unambiguous. -/
theorem sep_split_unique (sep : Char) :
    ∀ (a₁ a₂ b₁ b₂ : List Char), sep ∉ a₁ → sep ∉ a₂ →
      (a₁ ++ sep :: b₁ = a₂ ++ sep :: b₂ ↔ a₁ = a₂ ∧ b₁ = b₂) := by
  intro a₁
  induction a₁ with
  | nil =>
    intro a₂ b₁ b₂ _ h₂
    cases a₂ with
    | nil => simp
    | cons y a₂' =>
      simp only [List.nil_append, List.cons_append, List.cons.injEq]
      constructor
      · intro ⟨hy, _⟩
        exact absurd (hy ▸ List.mem_cons_self y a₂') h₂
      · intro ⟨he, _⟩
        exact absurd he (by simp)
  | cons x a₁' ih =>
    intro a₂ b₁ b₂ h₁ h₂
    cases a₂ with
    | nil =>
      simp only [List.cons_append, List.nil_append, List.cons.injEq]
      constructor
      · intro ⟨hy, _⟩
        exact absurd (hy ▸ List.mem_cons_self x a₁') h₁
      · intro ⟨he, _⟩
        exact absurd he (by simp)
    | cons y a₂' =>
      simp only [List.cons_append, List.cons.injEq]
      have ih' := ih a₂' b₁ b₂ (fun hm => h₁ (List.mem_cons_of_mem x hm))
        (fun hm => h₂ (List.mem_cons_of_mem y hm))
      constructor
      · intro ⟨hy, htail⟩
        obtain ⟨ha, hb⟩ := ih'.mp htail
        exact ⟨⟨hy, ha⟩, hb⟩
      · intro ⟨⟨hy, ha⟩, hb⟩
        exact ⟨hy, ih'.mpr ⟨ha, hb⟩⟩

/-- Counterexample to the injectivity of the deduplication/embedding key:
an absent context and an empty context produce the same pre-hash string,
and a `:` inside the content re-splits against the context, so two
distinct `(content, context)` pairs share a key. -/
theorem fragmentHash_collision_counterexample :
    calculateFragmentHashData "decision" "a" none
        = calculateFragmentHashData "decision" "a" (some "")
      ∧ (some "" : Option String) ≠ (none : Option String)
      ∧ calculateFragmentHashData "decision" "a:b" (some "c")
        = calculateFragmentHashData "decision" "a" (some "b:c")
      ∧ (("a:b", some "c") : String × Option String) ≠ ("a", some "b:c") := by
  exact ⟨by decide, by decide, by decide, by decide⟩

/-- Amended behaviour: the pre-hash string is injective only after
restricting contents to be colon-free and identifying an absent context
with the empty one; under that restriction two entries of the same type
share a key exactly when their contents agree and their
(defaulted) contexts agree. -/
theorem fragmentHash_injective_colonfree (t c₁ c₂ : String) (x₁ x₂ : Option String)
    (h₁ : ':' ∉ c₁.data) (h₂ : ':' ∉ c₂.data) :
    calculateFragmentHashData t c₁ x₁ = calculateFragmentHashData t c₂ x₂
      ↔ (c₁ = c₂ ∧ x₁.getD "" = x₂.getD "") := by
  have hctx : ∀ (x : Option String),
      (match x with
        | some s => jsOrStr s ""
        | none => "") = x.getD "" := by
    intro x
    cases x with
    | none => rfl
    | some s => simpa using jsOrStr_empty s
  unfold calculateFragmentHashData
  rw [hctx, hctx]
  constructor
  · intro h
    have hd : t.data ++ ':' :: (c₁.data ++ ':' :: (x₁.getD "").data)
        = t.data ++ ':' :: (c₂.data ++ ':' :: (x₂.getD "").data) := by
      have := congrArg String.data h
      simpa [String.data_append] using this
    have hinner := List.append_cancel_left hd
    have hcons : c₁.data ++ ':' :: (x₁.getD "").data
        = c₂.data ++ ':' :: (x₂.getD "").data := by
      simpa using hinner
    obtain ⟨hc, hx⟩ := (sep_split_unique ':' c₁.data c₂.data _ _ h₁ h₂).mp hcons
    constructor
    · apply String.ext
      exact hc
    · apply String.ext
      exact hx
  · intro ⟨hc, hx⟩
    rw [hc, hx]

theorem fragmentHash_injective_colonfree_witness :
    calculateFragmentHashData "decision" "ab" (some "z")
        = calculateFragmentHashData "decision" "ab" (some "z")
      ∧ calculateFragmentHashData "decision" "ab" (some "z")
        ≠ calculateFragmentHashData "decision" "cd" (some "z") := by
  have h1 := fragmentHash_injective_colonfree "decision" "ab" "ab" (some "z") (some "z")
    (by decide) (by decide)
  have h2 := fragmentHash_injective_colonfree "decision" "ab" "cd" (some "z") (some "z")
    (by decide) (by decide)
  refine ⟨h1.mpr ⟨rfl, rfl⟩, fun e => ?_⟩
  have := (h2.mp e).1
  exact absurd this (by decide)

end Prose
